import Mathlib

/-!
Shallow embedding of the LOD-construction core of the `Lod` repository
(`src/core/Mesh.{hpp,cpp}`, `src/core/Geometry.{hpp,cpp}`,
`src/core/LodAlgorithm.{hpp,cpp}`, `src/geo/GeoBBox.hpp`,
`src/io/TilesExporter.cpp`).

Conventions of the embedding:
* `float` / `double` coordinates are embedded as exact rationals (`ℚ`);
  all claims treated here are about comparison/branching logic, not about
  rounding of individual floating-point operations.
* `size_t` quantities are embedded as `Nat`.  `uint32_t` index arithmetic
  in `Mesh::subset` and in the intersection-based `buildOctree` is embedded
  with an explicit `% 2 ^ 32`, because the C++ expression
  `triIndex * 3 + 2` is computed in 32-bit unsigned arithmetic.
* C++ functions returning `nullptr` / `std::unexpected` on failure are
  embedded as `Option`-valued functions.
* Recursions that the C++ code bounds by a depth limit are embedded with a
  fuel parameter; the wrapper passes enough fuel that the fuel-exhaustion
  branch coincides with the source's own depth guard.
-/

namespace Lod

/-- 3-component vector of exact coordinates (embeds `std::array<float,3>` /
`Vec3`). -/
structure Vec3 where
  x : ℚ
  y : ℚ
  z : ℚ
deriving DecidableEq, Repr

/-- The zero vector, the value-initialised `Vertex`. -/
def vzero : Vec3 := ⟨0, 0, 0⟩

/-- Axis-aligned bounding box, `lod::core::BoundingBox`
(`src/core/Geometry.hpp`, lines 12-83). -/
structure Box where
  min : Vec3
  max : Vec3
deriving DecidableEq, Repr

namespace Box

/-- `BoundingBox::center`: `(min + max) * 0.5` per component. -/
def center (b : Box) : Vec3 :=
  ⟨(b.min.x + b.max.x) * (1/2), (b.min.y + b.max.y) * (1/2),
   (b.min.z + b.max.z) * (1/2)⟩

/-- `BoundingBox::size`: `max - min` per component. -/
def size (b : Box) : Vec3 :=
  ⟨b.max.x - b.min.x, b.max.y - b.min.y, b.max.z - b.min.z⟩

/-- `BoundingBox::volume`: product of the size components. -/
def volume (b : Box) : ℚ :=
  b.size.x * b.size.y * b.size.z

/-- `BoundingBox::empty`: some axis has `min ≥ max`. -/
def emptyB (b : Box) : Bool :=
  decide (b.min.x ≥ b.max.x) || decide (b.min.y ≥ b.max.y) ||
  decide (b.min.z ≥ b.max.z)

/-- `BoundingBox::contains(point)`: closed containment on every axis. -/
def contains (b : Box) (p : Vec3) : Bool :=
  decide (p.x ≥ b.min.x) && decide (p.x ≤ b.max.x) &&
  decide (p.y ≥ b.min.y) && decide (p.y ≤ b.max.y) &&
  decide (p.z ≥ b.min.z) && decide (p.z ≤ b.max.z)

/-- `BoundingBox::intersects(other)`: negation of axis separation. -/
def intersects (b o : Box) : Bool :=
  !(decide (b.max.x < o.min.x) || decide (b.min.x > o.max.x) ||
    decide (b.max.y < o.min.y) || decide (b.min.y > o.max.y) ||
    decide (b.max.z < o.min.z) || decide (b.min.z > o.max.z))

/-- `BoundingBox::subdivide()`: the eight sub-boxes, in the source's
order (index bit 0 = x-high half, bit 1 = y-high half, bit 2 = z-high
half), `src/core/Geometry.hpp`, lines 66-82. -/
def subdivide (b : Box) : List Box :=
  let c := b.center
  [ ⟨b.min, c⟩,
    ⟨⟨c.x, b.min.y, b.min.z⟩, ⟨b.max.x, c.y, c.z⟩⟩,
    ⟨⟨b.min.x, c.y, b.min.z⟩, ⟨c.x, b.max.y, c.z⟩⟩,
    ⟨⟨c.x, c.y, b.min.z⟩, ⟨b.max.x, b.max.y, c.z⟩⟩,
    ⟨⟨b.min.x, b.min.y, c.z⟩, ⟨c.x, c.y, b.max.z⟩⟩,
    ⟨⟨c.x, b.min.y, c.z⟩, ⟨b.max.x, c.y, b.max.z⟩⟩,
    ⟨⟨b.min.x, c.y, c.z⟩, ⟨c.x, b.max.y, b.max.z⟩⟩,
    ⟨c, b.max⟩ ]

/-- Strict (interior) containment, used to state interior-disjointness. -/
def interior (b : Box) (p : Vec3) : Bool :=
  decide (p.x > b.min.x) && decide (p.x < b.max.x) &&
  decide (p.y > b.min.y) && decide (p.y < b.max.y) &&
  decide (p.z > b.min.z) && decide (p.z < b.max.z)

end Box

/-- The sub-box of `b` selected by one high/low choice per axis
(`true` = upper half).  `Box.subdivide` lists exactly these eight boxes,
at index `x-bit + 2 * y-bit + 4 * z-bit`. -/
def childBox (b : Box) (bx by_ bz : Bool) : Box :=
  let c := b.center
  ⟨⟨if bx then c.x else b.min.x, if by_ then c.y else b.min.y,
    if bz then c.z else b.min.z⟩,
   ⟨if bx then b.max.x else c.x, if by_ then b.max.y else c.y,
    if bz then b.max.z else c.z⟩⟩

/-- WGS84 rectangle, `lod::geo::GeoBBox` (`src/geo/GeoBBox.hpp`). -/
structure GeoBBox where
  minLon : ℚ
  minLat : ℚ
  maxLon : ℚ
  maxLat : ℚ
deriving DecidableEq, Repr

namespace GeoBBox

/-- `GeoBBox::width`. -/
def width (g : GeoBBox) : ℚ := g.maxLon - g.minLon

/-- `GeoBBox::height`. -/
def height (g : GeoBBox) : ℚ := g.maxLat - g.minLat

/-- `GeoBBox::centerLon`. -/
def centerLon (g : GeoBBox) : ℚ := (g.minLon + g.maxLon) * (1/2)

/-- `GeoBBox::centerLat`. -/
def centerLat (g : GeoBBox) : ℚ := (g.minLat + g.maxLat) * (1/2)

/-- `GeoBBox::empty`: zero or negative extent on some axis. -/
def emptyG (g : GeoBBox) : Bool :=
  decide (g.width ≤ 0) || decide (g.height ≤ 0)

/-- `GeoBBox::contains(lon, lat)`: closed containment. -/
def contains (g : GeoBBox) (lon lat : ℚ) : Bool :=
  decide (lon ≥ g.minLon) && decide (lon ≤ g.maxLon) &&
  decide (lat ≥ g.minLat) && decide (lat ≤ g.maxLat)

/-- `GeoBBox::subdivide()`: the four sub-rectangles in order SW, SE, NW,
NE (`src/geo/GeoBBox.hpp`, lines 56-66). -/
def subdivide (g : GeoBBox) : List GeoBBox :=
  let midLon := g.centerLon
  let midLat := g.centerLat
  [ ⟨g.minLon, g.minLat, midLon, midLat⟩,
    ⟨midLon, g.minLat, g.maxLon, midLat⟩,
    ⟨g.minLon, midLat, midLon, g.maxLat⟩,
    ⟨midLon, midLat, g.maxLon, g.maxLat⟩ ]

/-- Strict (interior) containment for a geographic rectangle. -/
def interior (g : GeoBBox) (lon lat : ℚ) : Bool :=
  decide (lon > g.minLon) && decide (lon < g.maxLon) &&
  decide (lat > g.minLat) && decide (lat < g.maxLat)

end GeoBBox

/-- Parallel vertex-attribute arrays, `lod::core::VertexAttributes`
(`src/core/Mesh.hpp`).  Colors are quadruples of bytes; byte values are
embedded as `Nat`. -/
structure VertexAttributes where
  positions : List Vec3
  normals : List Vec3
  texCoords : List (ℚ × ℚ)
  colors : List (Nat × Nat × Nat × Nat)
deriving DecidableEq, Repr

/-- `VertexAttributes::size()`: the number of positions. -/
def VertexAttributes.size (va : VertexAttributes) : Nat := va.positions.length

/-- The parallel-arrays mesh, `lod::core::Mesh` (`src/core/Mesh.hpp`,
class with `vertices_` and `indices_`). -/
structure MeshA where
  vertices : VertexAttributes
  indices : List Nat
deriving DecidableEq, Repr

namespace MeshA

/-- `Mesh::vertexCount`. -/
def vertexCount (m : MeshA) : Nat := m.vertices.size

/-- `Mesh::triangleCount`: `indices_.size() / 3`. -/
def triangleCount (m : MeshA) : Nat := m.indices.length / 3

/-- `Mesh::empty`: no vertices or no indices. -/
def emptyM (m : MeshA) : Bool :=
  m.vertices.positions.isEmpty || m.indices.isEmpty

/-- The default-constructed `Mesh{}`. -/
def emptyMesh : MeshA := ⟨⟨[], [], [], []⟩, []⟩

/-- Well-formedness from the data model: every index is a valid vertex
id. -/
def wf (m : MeshA) : Prop := ∀ i ∈ m.indices, i < m.vertices.positions.length

/-- The in-range guard of `Mesh::subset` and of the intersection-based
`buildOctree`: `triIndex * 3 + 2 < indices_.size()`, where
`triIndex * 3 + 2` is computed in 32-bit unsigned arithmetic. -/
def subsetGuard (m : MeshA) (t : Nat) : Bool :=
  decide ((t * 3 + 2) % 2 ^ 32 < m.indices.length)

/-- The vertex id fetched for corner `r` of triangle `t`:
`indices_[triIndex * 3 + r]`, the subscript again computed in 32-bit
arithmetic (out-of-range reads are embedded as the default `0`; the
checked variant below tracks whether such a read happens). -/
def triIdx (m : MeshA) (t r : Nat) : Nat :=
  m.indices.getD ((t * 3 + r) % 2 ^ 32) 0

/-- All vertex ids collected by the first loop of `Mesh::subset` (the
`usedVertices` insertions), in visit order. -/
def usedOf (m : MeshA) (tris : List Nat) : List Nat :=
  ((tris.filter (subsetGuard m)).map
    (fun t => [triIdx m t 0, triIdx m t 1, triIdx m t 2])).flatten

/-- The iteration order of the `std::set<Index> usedVertices` restricted
by the remap guard `oldIndex < vertices_.size()`: the used vertex ids
below the vertex count, in increasing order, each once. -/
def usedSorted (m : MeshA) (tris : List Nat) : List Nat :=
  (List.range m.vertices.positions.length).filter
    (fun v => (usedOf m tris).contains v)

end MeshA

/-- Position of the first occurrence of `v` in `l`: the rank a vertex id
receives in `vertexRemap` (ids are inserted in `usedSorted` order with a
running counter). -/
def rankOf : List Nat → Nat → Option Nat
  | [], _ => none
  | w :: ws, v => if w = v then some 0 else (rankOf ws v).map (· + 1)

namespace MeshA

/-- The `newVertices` of `Mesh::subset`: each attribute array compacted
to the used vertex ids, in increasing id order, each array guarded by its
own length as in the source. -/
def subsetVerts (m : MeshA) (tris : List Nat) : VertexAttributes :=
  let us := usedSorted m tris
  ⟨us.map (fun v => m.vertices.positions.getD v vzero),
   (us.filter (fun v => v < m.vertices.normals.length)).map
     (fun v => m.vertices.normals.getD v vzero),
   (us.filter (fun v => v < m.vertices.texCoords.length)).map
     (fun v => m.vertices.texCoords.getD v (0, 0)),
   (us.filter (fun v => v < m.vertices.colors.length)).map
     (fun v => m.vertices.colors.getD v (0, 0, 0, 0))⟩

/-- The `newIndices` of `Mesh::subset`: for each listed triangle passing
the 32-bit guard, the three remapped corner ids — or nothing when some
corner is missing from the remap (`vertexRemap.find` fails). -/
def subsetIndices (m : MeshA) (tris : List Nat) : List Nat :=
  ((tris.filter (subsetGuard m)).map (fun t =>
    match rankOf (usedSorted m tris) (triIdx m t 0),
          rankOf (usedSorted m tris) (triIdx m t 1),
          rankOf (usedSorted m tris) (triIdx m t 2) with
    | some a, some b, some c => [a, b, c]
    | _, _, _ => [])).flatten

/-- `Mesh::subset(std::span<const Index>)` (`src/core/Mesh.cpp`, lines
12-80): collect referenced vertices of the in-guard listed triangles,
compact the vertex attributes to those (in increasing id order), and
rebuild the index buffer through the remap; triangles whose triple fails
the 32-bit guard, or any of whose vertex ids is not in the remap, are
skipped. -/
def subset (m : MeshA) (tris : List Nat) : MeshA :=
  if tris.isEmpty || m.indices.isEmpty then emptyMesh
  else ⟨subsetVerts m tris, subsetIndices m tris⟩

/-- Whether every index-buffer read performed by `Mesh::subset` for the
listed triangles is in bounds.  These are the only unguarded reads of the
source: the 32-bit guard checks `triIndex * 3 + 2` only, so a wrapped
`triIndex * 3 + r` can slip past it. -/
def subsetReadsOK (m : MeshA) (tris : List Nat) : Bool :=
  (tris.filter (subsetGuard m)).all (fun t =>
    decide ((t * 3) % 2 ^ 32 < m.indices.length) &&
    decide ((t * 3 + 1) % 2 ^ 32 < m.indices.length) &&
    decide ((t * 3 + 2) % 2 ^ 32 < m.indices.length))

/-- Checked variant of `subset`: `none` when some index-buffer read is
out of bounds (undefined behaviour in the source). -/
def subsetChecked (m : MeshA) (tris : List Nat) : Option MeshA :=
  if subsetReadsOK m tris then some (subset m tris) else none

/-- Every vertex of the mesh is referenced by at least one index. -/
def compactB (m : MeshA) : Bool :=
  (List.range m.vertexCount).all (fun v => m.indices.contains v)

end MeshA

/-- The per-vertex-struct mesh used by the centroid-based
`buildOctree(mesh, maxDepth, maxTrianglesPerNode)` overload; only the
`position` member of `Vertex` is relevant to that code. -/
structure MeshB where
  vertices : List Vec3
  indices : List Nat
deriving DecidableEq, Repr

/-- Componentwise minimum. -/
def vmin (a b : Vec3) : Vec3 := ⟨min a.x b.x, min a.y b.y, min a.z b.z⟩

/-- Componentwise maximum. -/
def vmax (a b : Vec3) : Vec3 := ⟨max a.x b.x, max a.y b.y, max a.z b.z⟩

/-- Modelled from the spec: the `BoundingBox computeBoundingBox(const
Mesh&)` overload for the parallel-arrays mesh is declared in
`src/core/Geometry.hpp` (line 156) but its body is not among the source
files; the spec says the root bounds is "computed from vertex positions",
and every sibling implementation in the source
(`computeGeometryBoundingBox`, `Mesh::boundingBox`, `computeStats`) folds
componentwise min/max over the positions, with the zero box for an empty
mesh.  This definition does the same. -/
def computeBoundingBox (m : MeshA) : Box :=
  match m.vertices.positions with
  | [] => ⟨vzero, vzero⟩
  | p :: ps => ⟨ps.foldl vmin p, ps.foldl vmax p⟩

/-- The three corner positions of triangle `t` fetched by the
intersection-based `buildOctree` (`positions[indices[triIdx * 3 + r]]`,
the flat subscript computed in 32-bit arithmetic because `triIdx` is an
`Index`). -/
def triA (m : MeshA) (t : Nat) : Vec3 × Vec3 × Vec3 :=
  (m.vertices.positions.getD (m.triIdx t 0) vzero,
   m.vertices.positions.getD (m.triIdx t 1) vzero,
   m.vertices.positions.getD (m.triIdx t 2) vzero)

/-- The three corner positions of triangle `t` with the flat subscript
computed in `size_t` arithmetic (no wrapping), as in `splitMeshByBounds`
where the loop counter is a `size_t`. -/
def triAP (m : MeshA) (t : Nat) : Vec3 × Vec3 × Vec3 :=
  (m.vertices.positions.getD (m.indices.getD (t * 3) 0) vzero,
   m.vertices.positions.getD (m.indices.getD (t * 3 + 1) 0) vzero,
   m.vertices.positions.getD (m.indices.getD (t * 3 + 2) 0) vzero)

/-- `computeTriangleBounds` (`src/core/Geometry.cpp`, lines 52-64):
componentwise min/max of the three corners, seeded with corner 0. -/
def computeTriangleBounds (tri : Vec3 × Vec3 × Vec3) : Box :=
  ⟨vmin (vmin tri.1 tri.2.1) tri.2.2, vmax (vmax tri.1 tri.2.1) tri.2.2⟩

/-- `triangleIntersectsBounds` (`src/core/Geometry.cpp`, lines 32-50):
false when the triangle's bounding box misses `bounds`; otherwise true
(the vertex-containment loop and the conservative fallthrough both return
true). -/
def triangleIntersectsBounds (tri : Vec3 × Vec3 × Vec3) (bounds : Box) :
    Bool :=
  let triBounds := computeTriangleBounds tri
  if !(bounds.intersects triBounds) then false
  else if bounds.contains tri.1 || bounds.contains tri.2.1 ||
      bounds.contains tri.2.2 then true
  else true

/-- `lod::core::OctreeConfig` (`src/core/Geometry.hpp`, lines 126-131);
`enableAdaptiveSubdivision` is never read by the builder and is omitted. -/
structure OctreeConfig where
  maxTrianglesPerNode : Nat
  maxDepth : Nat
  minNodeSize : ℚ
deriving DecidableEq, Repr

/-- `lod::core::OctreeNode`: bounds, triangle-id list, children and
depth.  The C++ node stores a fixed array of eight owning pointers;
`children` here lists the non-null children in slot order, so `isLeaf`
(all slots null) becomes `children = []`. -/
inductive ONode where
  | mk (bounds : Box) (tris : List Nat) (children : List ONode)
      (depth : Nat)
deriving Repr

/-- Bounds of an octree node. -/
def ONode.bounds : ONode → Box
  | .mk b _ _ _ => b

/-- Triangle-id list of an octree node. -/
def ONode.tris : ONode → List Nat
  | .mk _ ts _ _ => ts

/-- Children of an octree node. -/
def ONode.children : ONode → List ONode
  | .mk _ _ cs _ => cs

/-- Depth of an octree node. -/
def ONode.depth : ONode → Nat
  | .mk _ _ _ d => d

/-- The recursive `subdivideNode` lambda of the intersection-based
`buildOctree` (`src/core/Geometry.cpp`, lines 88-141), written with a
fuel parameter: recursion happens only under `depth < maxDepth`, and the
wrapper passes `maxDepth + 1` fuel, so the fuel-exhaustion branch (which
leaves the node a leaf, as the depth guard would) is never taken. -/
def subdivideNodeF (m : MeshA) (cfg : OctreeConfig) :
    Nat → Box → List Nat → Nat → ONode
  | 0, b, ts, d => .mk b ts [] d
  | fuel + 1, b, ts, d =>
    if ts.length ≤ cfg.maxTrianglesPerNode ∨ cfg.maxDepth ≤ d ∨
        b.volume < cfg.minNodeSize * cfg.minNodeSize * cfg.minNodeSize then
      .mk b ts [] d
    else
      let children := b.subdivide.filterMap (fun cb =>
        let ct := ts.filter (fun t =>
          m.subsetGuard t && triangleIntersectsBounds (triA m t) cb)
        if ct.isEmpty then none
        else some (subdivideNodeF m cfg fuel cb ct (d + 1)))
      if children.isEmpty then .mk b ts [] d else .mk b [] children d

/-- `buildOctree(const Mesh&, const OctreeConfig&)`
(`src/core/Geometry.cpp`, lines 66-145): `none` for an empty mesh or an
empty root bounding box; otherwise the root starts with every triangle id
and is recursively subdivided, each triangle being copied into every
child whose bounds its own bounding box intersects. -/
def buildOctree1 (m : MeshA) (cfg : OctreeConfig) : Option ONode :=
  if m.emptyM then none
  else
    let rootBounds := computeBoundingBox m
    if rootBounds.emptyB then none
    else some (subdivideNodeF m cfg (cfg.maxDepth + 1) rootBounds
      (List.range m.triangleCount) 0)

mutual

/-- Sum of the triangle-list lengths over the leaves of an octree. -/
def ONode.leafTriSum : ONode → Nat
  | .mk _ ts cs _ => if cs.isEmpty then ts.length else leafTriSumList cs

/-- Sum of `leafTriSum` over a list of octree nodes. -/
def leafTriSumList : List ONode → Nat
  | [] => 0
  | c :: cs => c.leafTriSum + leafTriSumList cs

end

mutual

/-- Whether triangle id `t` appears in some leaf of the octree. -/
def ONode.inLeafB (t : Nat) : ONode → Bool
  | .mk _ ts cs _ => if cs.isEmpty then ts.contains t else inLeafList t cs

/-- Whether triangle id `t` appears in some leaf of some node of the
list. -/
def inLeafList (t : Nat) : List ONode → Bool
  | [] => false
  | c :: cs => c.inLeafB t || inLeafList t cs

end

/-- `computeGeometryBoundingBox` (`src/core/Geometry.cpp`, lines 11-30):
componentwise min/max over the per-vertex-struct positions, zero box when
there are no vertices. -/
def computeGeometryBoundingBox (mb : MeshB) : Box :=
  match mb.vertices with
  | [] => ⟨vzero, vzero⟩
  | p :: ps => ⟨ps.foldl vmin p, ps.foldl vmax p⟩

/-- The per-triangle centroids precomputed by the centroid-based
`buildOctree` (`src/core/Geometry.cpp`, lines 278-290):
`(v0 + v1 + v2) / 3` per component, the vertex reads unguarded (embedded
with defaults; the builders only use in-range ids). -/
def triangleCenters (mb : MeshB) : List Vec3 :=
  (List.range (mb.indices.length / 3)).map (fun k =>
    let v0 := mb.vertices.getD (mb.indices.getD (3 * k) 0) vzero
    let v1 := mb.vertices.getD (mb.indices.getD (3 * k + 1) 0) vzero
    let v2 := mb.vertices.getD (mb.indices.getD (3 * k + 2) 0) vzero
    ⟨(v0.x + v1.x + v2.x) / 3, (v0.y + v1.y + v2.y) / 3,
     (v0.z + v1.z + v2.z) / 3⟩)

/-- The centre computed inside the centroid-based `buildOctree`
(`(bounds.min + bounds.max) / 2` per component). -/
def octCenter (b : Box) : Vec3 :=
  ⟨(b.min.x + b.max.x) / 2, (b.min.y + b.max.y) / 2,
   (b.min.z + b.max.z) / 2⟩

/-- The eight child bounds listed inline in the centroid-based
`buildOctree` (`src/core/Geometry.cpp`, lines 315-324); same boxes and
order as `BoundingBox::subdivide`. -/
def octChildBounds (b : Box) : List Box :=
  let c := octCenter b
  [ ⟨⟨b.min.x, b.min.y, b.min.z⟩, ⟨c.x, c.y, c.z⟩⟩,
    ⟨⟨c.x, b.min.y, b.min.z⟩, ⟨b.max.x, c.y, c.z⟩⟩,
    ⟨⟨b.min.x, c.y, b.min.z⟩, ⟨c.x, b.max.y, c.z⟩⟩,
    ⟨⟨c.x, c.y, b.min.z⟩, ⟨b.max.x, b.max.y, c.z⟩⟩,
    ⟨⟨b.min.x, b.min.y, c.z⟩, ⟨c.x, c.y, b.max.z⟩⟩,
    ⟨⟨c.x, b.min.y, c.z⟩, ⟨b.max.x, c.y, b.max.z⟩⟩,
    ⟨⟨b.min.x, c.y, c.z⟩, ⟨c.x, b.max.y, b.max.z⟩⟩,
    ⟨⟨c.x, c.y, c.z⟩, ⟨b.max.x, b.max.y, b.max.z⟩⟩ ]

/-- The sub-box of `octChildBounds` selected by one high/low choice per
axis (`true` = upper half); `octChildBounds` lists these eight boxes at
index `x-bit + 2 * y-bit + 4 * z-bit`. -/
def octChildBox (b : Box) (bx by_ bz : Bool) : Box :=
  let c := octCenter b
  ⟨⟨cond bx c.x b.min.x, cond by_ c.y b.min.y, cond bz c.z b.min.z⟩,
   ⟨cond bx b.max.x c.x, cond by_ b.max.y c.y, cond bz b.max.z c.z⟩⟩

/-- The child selection of the centroid-based `buildOctree`
(`src/core/Geometry.cpp`, lines 333-336): bit 0 set iff the centroid's x
is `≥` the centre's, bit 1 for y, bit 2 for z. -/
def childIndexOf (c t : Vec3) : Nat :=
  (if t.x ≥ c.x then 1 else 0) + (if t.y ≥ c.y then 2 else 0) +
  (if t.z ≥ c.z then 4 else 0)

/-- The recursive `buildNode` lambda of the centroid-based `buildOctree`
(`src/core/Geometry.cpp`, lines 293-353), with fuel as for
`subdivideNodeF` (recursion only under `depth < maxDepth`).  The node
type is embedded with the same `ONode` as the array-of-eight variant; its
C++ `Octree` stores the non-empty children in a vector in index order,
which is exactly `ONode.children`. -/
def buildNode2 (centers : List Vec3) (maxDepth maxTrisPerNode : Nat) :
    Nat → Box → List Nat → Nat → ONode
  | 0, b, ts, d => .mk b ts [] d
  | fuel + 1, b, ts, d =>
    if maxDepth ≤ d ∨ ts.length ≤ maxTrisPerNode then .mk b ts [] d
    else
      let c := octCenter b
      let children := (List.range 8).filterMap (fun i =>
        let ct := ts.filter (fun t => childIndexOf c (centers.getD t vzero) = i)
        if ct.isEmpty then none
        else
          (octChildBounds b).get? i |>.map (fun cb =>
            buildNode2 centers maxDepth maxTrisPerNode fuel cb ct (d + 1)))
      .mk b ts children d

/-- `buildOctree(const Mesh&, int, size_t)` (`src/core/Geometry.cpp`,
lines 266-368): `none` for an empty mesh, otherwise the root holds every
triangle id and each triangle is routed to the single child selected by
`childIndexOf` on its precomputed centroid.  The source returns a
one-element vector of roots; the embedding returns the root. -/
def buildOctree2 (mb : MeshB) (maxDepth maxTrisPerNode : Nat) :
    Option ONode :=
  if mb.vertices.isEmpty || mb.indices.isEmpty then none
  else
    some (buildNode2 (triangleCenters mb) maxDepth maxTrisPerNode
      (maxDepth + 1) (computeGeometryBoundingBox mb)
      (List.range (mb.indices.length / 3)) 0)

/-- Signature of the external simplification kernel (`meshopt_simplify`):
positions, input index buffer and target index count, returning the new
index buffer. -/
def SimplifyKernel : Type :=
  List Vec3 → List Nat → Nat → List Nat

/-- Modelled from the spec: `meshopt_simplify` is a third-party kernel
whose source is not part of the repository; the spec's contract is that
it "returns a new index buffer of length `≤ targetIndexCount`".  The
model truncates the input index buffer to the target length, which
satisfies that contract. -/
def meshoptSimplifyModel : SimplifyKernel :=
  fun _ indices targetIndexCount => indices.take targetIndexCount

/-- `simplifyMesh` (`src/core/LodAlgorithm.cpp`, lines 111-154),
parameterised by the kernel: return the mesh unchanged when it is empty
or already within the target, otherwise keep the full vertex buffer and
replace the index buffer by the kernel's output (the kernel is called
with `targetTriangleCount * 3` as target index count). -/
def simplifyMesh (kernel : SimplifyKernel) (m : MeshA)
    (targetTriangleCount : Nat) : MeshA :=
  if m.emptyM || m.triangleCount ≤ targetTriangleCount then m
  else
    ⟨m.vertices,
     kernel m.vertices.positions m.indices (targetTriangleCount * 3)⟩

/-- The strategy capability used by the LOD builders
(`lod::core::ILodStrategy`). -/
structure Strategy where
  targetTriangleCount : MeshA → Nat → Nat
  computeGeometricError : MeshA → MeshA → ℚ
  shouldSubdivideGeo : MeshA → GeoBBox → Nat → Bool
  shouldSubdivideGeom : MeshA → Box → Nat → Bool

/-- `TriangleCountStrategy` (`src/core/LodAlgorithm.cpp`, lines 12-34):
target count `max(⌊count · ratio^level⌋, 100)` (the `static_cast<size_t>`
truncates the nonnegative product toward zero), error
`(1 - simplified/original) · 100` (0 for an empty original), subdivide
iff `count > maxTrianglesPerTile ∧ level < 8` in both modes. -/
def triangleCountStrategy (maxTrianglesPerTile : Nat)
    (reductionRatio : ℚ) : Strategy where
  targetTriangleCount m lodLevel :=
    max (Int.toNat (Rat.floor ((m.triangleCount : ℚ) * reductionRatio ^ lodLevel))) 100
  computeGeometricError original simplified :=
    if original.triangleCount = 0 then 0
    else (1 - (simplified.triangleCount : ℚ) / (original.triangleCount : ℚ)) * 100
  shouldSubdivideGeo m _ currentLevel :=
    decide (maxTrianglesPerTile < m.triangleCount) &&
    decide (currentLevel < 8)
  shouldSubdivideGeom m _ currentLevel :=
    decide (maxTrianglesPerTile < m.triangleCount) &&
    decide (currentLevel < 8)

/-- `splitMeshByRegion` (`src/core/LodAlgorithm.cpp`, lines 287-300): the
source's placeholder pairs the whole input mesh with every sub-region
("当前返回整个网格作为占位符" — currently returns the entire mesh as a
placeholder). -/
def splitMeshByRegion (m : MeshA) (_totalRegion : GeoBBox)
    (subRegions : List GeoBBox) : List (MeshA × GeoBBox) :=
  subRegions.map (fun region => (m, region))

/-- `splitMeshByBounds` (`src/core/Geometry.cpp`, lines 208-240): for
each box, the subset of triangles whose `triangleIntersectsBounds` test
passes (the loop counter is `size_t`, so the flat-index guard does not
wrap); boxes with no triangle are skipped. -/
def splitMeshByBounds (m : MeshA) (bounds : List Box) :
    List (MeshA × Box) :=
  bounds.filterMap (fun bound =>
    let triangleIndices := (List.range m.triangleCount).filter (fun i =>
      decide (i * 3 + 2 < m.indices.length) &&
      triangleIntersectsBounds (triAP m i) bound)
    if triangleIndices.isEmpty then none
    else some (m.subset triangleIndices, bound))

/-- `lod::core::GeoLodNode` (`src/core/LodAlgorithm.hpp`, lines 15-34). -/
inductive GeoLodNode where
  | mk (region : GeoBBox) (mesh : MeshA) (lodLevel : Nat)
      (geometricError : ℚ) (children : List GeoLodNode)
deriving Repr

/-- Region of a geographic LOD node. -/
def GeoLodNode.region : GeoLodNode → GeoBBox
  | .mk r _ _ _ _ => r

/-- Mesh of a geographic LOD node. -/
def GeoLodNode.mesh : GeoLodNode → MeshA
  | .mk _ m _ _ _ => m

/-- Level of a geographic LOD node. -/
def GeoLodNode.lodLevel : GeoLodNode → Nat
  | .mk _ _ l _ _ => l

/-- Geometric error of a geographic LOD node. -/
def GeoLodNode.geometricError : GeoLodNode → ℚ
  | .mk _ _ _ e _ => e

/-- Children of a geographic LOD node. -/
def GeoLodNode.children : GeoLodNode → List GeoLodNode
  | .mk _ _ _ _ cs => cs

/-- The `buildRecursive` lambda of `buildGeoLodHierarchy`
(`src/core/LodAlgorithm.cpp`, lines 172-205), returning the children it
appends to a node with the given mesh/region at the given depth.  Fuel as
before: the wrapper passes `maxLodLevels`, and the fuel-exhaustion branch
coincides with the `depth >= config.maxLodLevels` guard. -/
def geoBuildChildren (strat : Strategy) (kernel : SimplifyKernel)
    (maxLodLevels : Nat) :
    Nat → MeshA → GeoBBox → Nat → List GeoLodNode
  | 0, _, _, _ => []
  | fuel + 1, nodeMesh, region, depth =>
    if maxLodLevels ≤ depth then []
    else if !(strat.shouldSubdivideGeo nodeMesh region depth) then []
    else
      region.subdivide.filterMap (fun subRegion =>
        match splitMeshByRegion nodeMesh region [subRegion] with
        | [] => none
        | (sm, _) :: _ =>
          if sm.emptyM then none
          else
            let target := strat.targetTriangleCount sm (depth + 1)
            let childMesh := simplifyMesh kernel sm target
            let err := strat.computeGeometricError sm childMesh
            some (GeoLodNode.mk subRegion childMesh (depth + 1) err
              (geoBuildChildren strat kernel maxLodLevels fuel childMesh
                subRegion (depth + 1))))

/-- `buildGeoLodHierarchy` (`src/core/LodAlgorithm.cpp`, lines 157-209):
`none` for an empty mesh; otherwise the root carries the input mesh, LOD
level 0 and geometric error `0.0`, and is recursively subdivided. -/
def buildGeoLodHierarchy (strat : Strategy) (kernel : SimplifyKernel)
    (maxLodLevels : Nat) (inputMesh : MeshA) (region : GeoBBox) :
    Option GeoLodNode :=
  if inputMesh.emptyM then none
  else
    some (.mk region inputMesh 0 0
      (geoBuildChildren strat kernel maxLodLevels maxLodLevels inputMesh
        region 0))

/-- `lod::core::GeometricLodNode` (`src/core/Geometry.hpp`, lines
134-153). -/
inductive GLodNode where
  | mk (bounds : Box) (mesh : MeshA) (lodLevel : Nat)
      (geometricError : ℚ) (children : List GLodNode)
deriving Repr

/-- Bounds of a geometric LOD node. -/
def GLodNode.bounds : GLodNode → Box
  | .mk b _ _ _ _ => b

/-- Mesh of a geometric LOD node. -/
def GLodNode.mesh : GLodNode → MeshA
  | .mk _ m _ _ _ => m

/-- Geometric error of a geometric LOD node. -/
def GLodNode.geometricError : GLodNode → ℚ
  | .mk _ _ _ e _ => e

/-- Children of a geometric LOD node. -/
def GLodNode.children : GLodNode → List GLodNode
  | .mk _ _ _ _ cs => cs

/-- The `buildRecursive` lambda of the `useOctreeSubdivision = false`
branch of `buildGeometricLodHierarchy` (`src/core/LodAlgorithm.cpp`,
lines 228-261). -/
def geomBuildChildren (strat : Strategy) (kernel : SimplifyKernel)
    (maxLodLevels : Nat) :
    Nat → MeshA → Box → Nat → List GLodNode
  | 0, _, _, _ => []
  | fuel + 1, nodeMesh, bounds, depth =>
    if maxLodLevels ≤ depth then []
    else if !(strat.shouldSubdivideGeom nodeMesh bounds depth) then []
    else
      bounds.subdivide.filterMap (fun subBound =>
        match splitMeshByBounds nodeMesh [subBound] with
        | [] => none
        | (sm, _) :: _ =>
          if sm.emptyM then none
          else
            let target := strat.targetTriangleCount sm (depth + 1)
            let childMesh := simplifyMesh kernel sm target
            let err := strat.computeGeometricError sm childMesh
            some (GLodNode.mk subBound childMesh (depth + 1) err
              (geomBuildChildren strat kernel maxLodLevels fuel childMesh
                subBound (depth + 1))))

/-- The `useOctreeSubdivision = false` branch of
`buildGeometricLodHierarchy` (`src/core/LodAlgorithm.cpp`, lines
218-265): the root carries the input mesh, level 0 and geometric error
`0.0` (this branch has no empty-mesh early return).  The
`useOctreeSubdivision = true` branch delegates to the partition-guided
path and is not embedded here. -/
def buildGeometricLodRec (strat : Strategy) (kernel : SimplifyKernel)
    (maxLodLevels : Nat) (inputMesh : MeshA) (bounds : Box) : GLodNode :=
  .mk bounds inputMesh 0 0
    (geomBuildChildren strat kernel maxLodLevels maxLodLevels inputMesh
      bounds 0)

/-- A file written by the 3D-Tiles exporter: the manifest, or a per-tile
binary at a given LOD level (the source names tiles with the node's level
and address; only the kind and level matter to the write-order claim). -/
inductive FileName where
  | tileset
  | b3dm (level : Nat)
deriving DecidableEq, Repr

mutual

/-- The per-tile writes of the `exportRecursive` lambda of
`B3dmExporter::exportTileset` (`src/io/TilesExporter.cpp`, lines
145-173): the node's own `.b3dm` (when its mesh is non-empty) before its
children's, children in order. -/
def tileTrace : GeoLodNode → List FileName
  | .mk _ mesh lvl _ cs =>
    (if mesh.emptyM then [] else [.b3dm lvl]) ++ tileTraceList cs

/-- Concatenated per-tile writes of a list of nodes, in order. -/
def tileTraceList : List GeoLodNode → List FileName
  | [] => []
  | c :: cs => tileTrace c ++ tileTraceList cs

end

/-- The file-write order of `B3dmExporter::exportTileset`
(`src/io/TilesExporter.cpp`, lines 134-176): `tileset.json` is written
first (`generateTilesetJson`), then every per-tile `.b3dm`.  A failed
write aborts the remainder, which can only truncate the tail after
`tileset.json`. -/
def exportTilesetTrace (root : GeoLodNode) : List FileName :=
  .tileset :: tileTrace root

/-- The ordering the write-order claim asserts: every `tileset.json`
write comes after every per-tile write in the trace. -/
def tilesetWrittenLast (tr : List FileName) : Prop :=
  ∀ i j lvl, tr.get? i = some FileName.tileset →
    tr.get? j = some (FileName.b3dm lvl) → j < i

mutual

/-- All nodes of a geographic LOD tree (the node itself and, recursively,
all nodes of its children). -/
def GeoLodNode.allNodes : GeoLodNode → List GeoLodNode
  | .mk r m l e cs => .mk r m l e cs :: allNodesList cs

/-- All nodes of the trees in a list. -/
def allNodesList : List GeoLodNode → List GeoLodNode
  | [] => []
  | c :: cs => c.allNodes ++ allNodesList cs

end

/-- The corner positions of triangle `k` of a mesh given by positions
and a flat index buffer (plain `size_t` subscripts). -/
def triPos (positions : List Vec3) (indices : List Nat) (k : Nat) :
    Vec3 × Vec3 × Vec3 :=
  (positions.getD (indices.getD (3 * k) 0) vzero,
   positions.getD (indices.getD (3 * k + 1) 0) vzero,
   positions.getD (indices.getD (3 * k + 2) 0) vzero)

/-- A geographic rectangle used as concrete input (spec scenario S3). -/
def exRegion : GeoBBox := ⟨100, 30, 120, 50⟩

/-- A single right triangle in the unit square. -/
def exTriMesh : MeshA :=
  ⟨⟨[⟨0, 0, 0⟩, ⟨1, 0, 0⟩, ⟨0, 1, 0⟩], [], [], []⟩, [0, 1, 2]⟩

/-- A mesh with 101 triangles (the same triangle listed 101 times), large
enough that the triangle-count strategy's floor of 100 triangles forces
the simplification kernel to run. -/
def exMesh101 : MeshA :=
  ⟨⟨[⟨0, 0, 0⟩, ⟨1, 0, 0⟩, ⟨0, 1, 0⟩], [], [], []⟩,
   (List.replicate 101 [0, 1, 2]).flatten⟩

/-- A two-triangle quad mesh. -/
def exMeshQuad : MeshA :=
  ⟨⟨[⟨0, 0, 0⟩, ⟨1, 0, 0⟩, ⟨0, 1, 0⟩, ⟨1, 1, 0⟩], [], [], []⟩,
   [0, 1, 2, 0, 2, 3]⟩

/-- Two triangles whose bounding boxes straddle the subdivision planes of
the root box `[0,2]³`, so the intersection test copies each of them into
four children. -/
def exMeshDup : MeshA :=
  ⟨⟨[⟨0, 0, 0⟩, ⟨2, 0, 0⟩, ⟨0, 2, 0⟩, ⟨0, 0, 2⟩, ⟨0, 2, 2⟩], [], [], []⟩,
   [0, 1, 2, 0, 3, 4]⟩

/-- A per-vertex-struct mesh with one triangle whose centroid is exactly
the centre `(1,1,1)` of its bounding box `[0,2]³`. -/
def exMeshB : MeshB := ⟨[⟨0, 0, 0⟩, ⟨1, 1, 1⟩, ⟨2, 2, 2⟩], [0, 1, 2]⟩

/-- A one-node LOD tree with a non-empty mesh. -/
def exTileTree : GeoLodNode := .mk exRegion exMeshQuad 0 0 []

/-- A mesh whose first triangle lies in the SW quarter of `exRegion` and
whose second lies in the NE quarter (vertex coordinates are (lon, lat, 0)). -/
def exGeoMesh : MeshA :=
  ⟨⟨[⟨101, 31, 0⟩, ⟨102, 31, 0⟩, ⟨101, 32, 0⟩,
     ⟨115, 45, 0⟩, ⟨116, 45, 0⟩, ⟨115, 46, 0⟩], [], [], []⟩,
   [0, 1, 2, 3, 4, 5]⟩

/-! ## Theorems -/

/-- Opening a tree node: `allNodes` is the node followed by the nodes of
its children. -/
lemma allNodes_decomp (n : GeoLodNode) :
    n.allNodes = n :: allNodesList n.children := by
  cases n; rfl

/-- Membership in the node list of a forest. -/
lemma mem_allNodesList {n : GeoLodNode} {cs : List GeoLodNode} :
    n ∈ allNodesList cs ↔ ∃ c ∈ cs, n ∈ c.allNodes := by
  induction cs with
  | nil => simp [allNodesList]
  | cons c cs ih => simp [allNodesList, ih]

/-- Every node produced by the geographic builder's recursion carries
exactly the strategy error computed against the mesh of the node it was
split from, and so do all its descendants. -/
lemma geoBuildChildren_err (strat : Strategy) (kernel : SimplifyKernel)
    (maxLod : Nat) :
    ∀ fuel nm region depth c,
      c ∈ geoBuildChildren strat kernel maxLod fuel nm region depth →
      c.geometricError = strat.computeGeometricError nm c.mesh ∧
      ∀ n ∈ c.allNodes, ∀ d ∈ n.children,
        d.geometricError = strat.computeGeometricError n.mesh d.mesh := by
  intro fuel
  induction fuel with
  | zero => intro nm region depth c hc; simp [geoBuildChildren] at hc
  | succ fuel ih =>
    intro nm region depth c hc
    unfold geoBuildChildren at hc
    by_cases h1 : maxLod ≤ depth
    · simp [h1] at hc
    · by_cases h2 : strat.shouldSubdivideGeo nm region depth
      · simp [h1, h2, List.mem_filterMap, splitMeshByRegion] at hc
        obtain ⟨subRegion, hsub, hsome⟩ := hc
        by_cases h3 : nm.emptyM
        · simp [h3] at hsome
        · simp [h3] at hsome
          obtain ⟨rfl⟩ := hsome
          refine ⟨rfl, ?_⟩
          intro n hn d hd
          rw [allNodes_decomp] at hn
          rcases List.mem_cons.mp hn with rfl | hn2
          · exact (ih _ _ _ d hd).1
          · rw [mem_allNodesList] at hn2
            obtain ⟨c2, hc2, hn3⟩ := hn2
            exact (ih _ _ _ c2 hc2).2 n hn3 d hd
      · simp [h1, h2] at hc

/-- C2, amended (the builder never clamps): for every tree produced by
`buildGeoLodHierarchy`, the root's geometric error is `0.0`, and every
child's geometric error is exactly the strategy's computed error against
its parent's mesh — no comparison with the parent's error and no clamp to
`parent · 0.9` takes place, so child errors can exceed the parent's. -/
theorem C2_no_clamp (strat : Strategy) (kernel : SimplifyKernel)
    (maxLod : Nat) (mesh : MeshA) (region : GeoBBox) (root : GeoLodNode)
    (h : buildGeoLodHierarchy strat kernel maxLod mesh region = some root) :
    root.geometricError = 0 ∧
    ∀ n ∈ root.allNodes, ∀ c ∈ n.children,
      c.geometricError = strat.computeGeometricError n.mesh c.mesh := by
  unfold buildGeoLodHierarchy at h
  by_cases hm : mesh.emptyM
  · simp [hm] at h
  · simp [hm] at h
    obtain ⟨rfl⟩ := h
    refine ⟨rfl, ?_⟩
    intro n hn c hc
    rw [allNodes_decomp] at hn
    rcases List.mem_cons.mp hn with rfl | hn2
    · exact (geoBuildChildren_err strat kernel maxLod _ _ _ _ c hc).1
    · rw [mem_allNodesList] at hn2
      obtain ⟨c2, hc2, hn3⟩ := hn2
      exact (geoBuildChildren_err strat kernel maxLod _ _ _ _ c2 hc2).2 n
        hn3 c hc

set_option maxRecDepth 8000 in
unseal Rat.inv Rat.mul Rat.add Rat.sub in
/-- C2, witness for `C2_no_clamp` at a concrete 101-triangle input. -/
theorem C2_no_clamp_witness :
    ((buildGeoLodHierarchy (triangleCountStrategy 1 (1/2))
        meshoptSimplifyModel 1 exMesh101 exRegion).getD
      (.mk exRegion exTriMesh 0 0 [])).geometricError = 0 ∧
    ∀ n ∈ ((buildGeoLodHierarchy (triangleCountStrategy 1 (1/2))
        meshoptSimplifyModel 1 exMesh101 exRegion).getD
      (.mk exRegion exTriMesh 0 0 [])).allNodes, ∀ c ∈ n.children,
      c.geometricError =
        (triangleCountStrategy 1 (1/2)).computeGeometricError n.mesh
          c.mesh :=
  C2_no_clamp (triangleCountStrategy 1 (1/2)) meshoptSimplifyModel 1
    exMesh101 exRegion
    ((buildGeoLodHierarchy (triangleCountStrategy 1 (1/2))
        meshoptSimplifyModel 1 exMesh101 exRegion).getD
      (.mk exRegion exTriMesh 0 0 [])) (by rfl)

set_option maxRecDepth 8000 in
unseal Rat.inv Rat.mul Rat.add Rat.sub in
/-- C2, counterexample to the claim as stated: on a 101-triangle mesh
with the triangle-count strategy, the root's error is `0` while each of
the four children's errors is `100/101 > 0`, and no clamp to
`parent · 0.9 = 0` happened. -/
theorem C2_counterexample :
    (buildGeoLodHierarchy (triangleCountStrategy 1 (1/2))
        meshoptSimplifyModel 1 exMesh101 exRegion).map
      GeoLodNode.geometricError = some 0 ∧
    (buildGeoLodHierarchy (triangleCountStrategy 1 (1/2))
        meshoptSimplifyModel 1 exMesh101 exRegion).map
      (fun r => r.children.map GeoLodNode.geometricError) =
      some [100/101, 100/101, 100/101, 100/101] ∧
    ¬ ((100 : ℚ)/101 ≤ 0) ∧ (100 : ℚ)/101 ≠ 0 * (9/10) := by decide

unseal Rat.inv Rat.mul Rat.add Rat.sub in
/-- C4 (code bug): `splitMeshByRegion` pairs the whole input mesh with
every sub-region instead of routing triangles by vertex inclusion; at the
concrete input, the SW sub-rectangle of `exRegion` receives the whole
mesh although the mesh has vertices (115, 45) outside it. -/
theorem C4_split_placeholder :
    splitMeshByRegion exGeoMesh exRegion exRegion.subdivide =
      exRegion.subdivide.map (fun s => (exGeoMesh, s)) ∧
    exRegion.subdivide.get? 0 = some ⟨100, 30, 110, 40⟩ ∧
    GeoBBox.contains ⟨100, 30, 110, 40⟩ 115 45 = false := by decide

/-- C5 (confirmed): `simplifyMesh` returns the mesh itself — vertex
buffer and index buffer untouched — whenever the triangle count is
already within the target, for every kernel. -/
theorem C5_simplify_noop (kernel : SimplifyKernel) (m : MeshA)
    (target : Nat) (h : m.triangleCount ≤ target) :
    simplifyMesh kernel m target = m := by
  unfold simplifyMesh
  simp [h]

/-- C5, witness at a concrete one-triangle mesh and target 5. -/
theorem C5_simplify_noop_witness :
    exTriMesh.triangleCount ≤ 5 ∧
    simplifyMesh meshoptSimplifyModel exTriMesh 5 = exTriMesh :=
  ⟨by decide, C5_simplify_noop meshoptSimplifyModel exTriMesh 5 (by decide)⟩

/-- C6, amended: both LOD builders set the root's geometric error to
`0.0`, not to the largest per-axis extent of the root bounds. -/
theorem C6_root_error_zero (strat : Strategy) (kernel : SimplifyKernel)
    (maxLod : Nat) (mesh : MeshA) (region : GeoBBox) (bounds : Box)
    (root : GeoLodNode)
    (h : buildGeoLodHierarchy strat kernel maxLod mesh region = some root) :
    root.geometricError = 0 ∧
    (buildGeometricLodRec strat kernel maxLod mesh bounds).geometricError
      = 0 := by
  constructor
  · unfold buildGeoLodHierarchy at h
    by_cases hm : mesh.emptyM
    · simp [hm] at h
    · simp [hm] at h
      obtain ⟨rfl⟩ := h
      rfl
  · rfl

unseal Rat.inv Rat.mul Rat.add Rat.sub in
/-- C6, witness for `C6_root_error_zero` at a concrete non-empty mesh. -/
theorem C6_root_error_zero_witness :
    ((buildGeoLodHierarchy (triangleCountStrategy 10 (1/2))
        meshoptSimplifyModel 3 exTriMesh exRegion).getD
      (.mk exRegion exTriMesh 0 0 [])).geometricError = 0 ∧
    (buildGeometricLodRec (triangleCountStrategy 10 (1/2))
        meshoptSimplifyModel 3 exTriMesh ⟨⟨0, 0, 0⟩, ⟨1, 1, 1⟩⟩).geometricError
      = 0 :=
  C6_root_error_zero (triangleCountStrategy 10 (1/2)) meshoptSimplifyModel
    3 exTriMesh exRegion ⟨⟨0, 0, 0⟩, ⟨1, 1, 1⟩⟩
    ((buildGeoLodHierarchy (triangleCountStrategy 10 (1/2))
        meshoptSimplifyModel 3 exTriMesh exRegion).getD
      (.mk exRegion exTriMesh 0 0 [])) (by rfl)

unseal Rat.inv Rat.mul Rat.add Rat.sub in
/-- C6, counterexample to the claim as stated: for a non-empty input on
`exRegion` (largest extent 20) the root's geometric error is `0`, not 20. -/
theorem C6_counterexample :
    (buildGeoLodHierarchy (triangleCountStrategy 10 (1/2))
        meshoptSimplifyModel 3 exTriMesh exRegion).map
      GeoLodNode.geometricError = some 0 ∧
    max exRegion.width exRegion.height = 20 ∧ (0 : ℚ) ≠ 20 := by decide

mutual

/-- Every file the per-tile recursion writes is a `.b3dm`. -/
theorem tileTrace_only_b3dm : ∀ (n : GeoLodNode),
    ∀ f ∈ tileTrace n, ∃ l, f = FileName.b3dm l
  | .mk r m lvl e cs => by
    intro f hf
    unfold tileTrace at hf
    rcases List.mem_append.mp hf with h | h
    · by_cases hm : m.emptyM
      · simp [hm] at h
      · simp [hm] at h
        exact ⟨lvl, h⟩
    · exact tileTraceList_only_b3dm cs f h

/-- Every file the per-tile recursion writes for a forest is a `.b3dm`. -/
theorem tileTraceList_only_b3dm : ∀ (l : List GeoLodNode),
    ∀ f ∈ tileTraceList l, ∃ lv, f = FileName.b3dm lv
  | [] => by intro f hf; simp [tileTraceList] at hf
  | c :: cs => by
    intro f hf
    unfold tileTraceList at hf
    rcases List.mem_append.mp hf with h | h
    · exact tileTrace_only_b3dm c f h
    · exact tileTraceList_only_b3dm cs f h

end

/-- C9, amended: the exporter writes `tileset.json` first — the write
trace is `tileset.json` followed by per-tile `.b3dm` writes only — so its
presence does not mark that all tile writes have completed. -/
theorem C9_tileset_first : ∀ root : GeoLodNode,
    exportTilesetTrace root = FileName.tileset :: tileTrace root ∧
    ∀ f ∈ tileTrace root, ∃ l, f = FileName.b3dm l :=
  fun root => ⟨rfl, tileTrace_only_b3dm root⟩

/-- C9, counterexample to the claim as stated: for a one-node tree with a
non-empty mesh, the `.b3dm` write happens after `tileset.json`, so
`tileset.json` is not written last. -/
theorem C9_counterexample :
    ¬ tilesetWrittenLast (exportTilesetTrace exTileTree) := by
  intro h
  have h2 := h 0 1 0 rfl rfl
  omega

/-- C3, counterexample to the claim as stated: `simplifyMesh` keeps the
full input vertex buffer, so a simplification that empties the index
buffer leaves three unreferenced vertices. -/
theorem C3_counterexample :
    MeshA.compactB (simplifyMesh meshoptSimplifyModel exTriMesh 0) = false ∧
    (simplifyMesh meshoptSimplifyModel exTriMesh 0).vertexCount = 3 ∧
    (simplifyMesh meshoptSimplifyModel exTriMesh 0).indices = [] := by
  decide

/-- C10, counterexample to the claim as stated: the 32-bit guard wraps,
so the out-of-range triangle id `1431655766` (the mesh has 2 triangles)
is not skipped and produces a triangle, and for id `1431655765` the
guard passes while the read of `indices[3t]` is out of bounds. -/
theorem C10_counterexample :
    (exMeshQuad.subset [1431655766]).triangleCount = 1 ∧
    exMeshQuad.triangleCount = 2 ∧
    exMeshQuad.subsetReadsOK [1431655765] = false := by decide

unseal Rat.inv Rat.mul Rat.add Rat.sub in
/-- C1, counterexample to the claim as stated: on a non-empty two-triangle
mesh the intersection-based partitioner copies each triangle into four
leaves, so the leaf triangle-list lengths sum to 8, not 2. -/
theorem C1_counterexample :
    (buildOctree1 exMeshDup ⟨1, 1, 0⟩).map ONode.leafTriSum = some 8 ∧
    exMeshDup.triangleCount = 2 ∧ exMeshDup.emptyM = false ∧
    (buildOctree1 exMeshDup ⟨1, 1, 0⟩).map ONode.leafTriSum ≠
      some exMeshDup.triangleCount := by decide

unseal Rat.inv Rat.mul Rat.add Rat.sub in
/-- C7, counterexample to the claim as stated: the triangle with centroid
`(1,1,1)` — exactly the centre of the root box `[0,2]³` — is routed to
the child with bounds `[1,2]³` (the highest-index child, index 7), not to
the lowest-index child `[0,1]³` (index 0), although that child contains
the centroid on its closed boundary. -/
theorem C7_counterexample :
    triangleCenters exMeshB = [⟨1, 1, 1⟩] ∧
    (buildOctree2 exMeshB 1 0).map ONode.bounds =
      some ⟨⟨0, 0, 0⟩, ⟨2, 2, 2⟩⟩ ∧
    (buildOctree2 exMeshB 1 0).map (fun r => r.children.map ONode.bounds) =
      some [⟨⟨1, 1, 1⟩, ⟨2, 2, 2⟩⟩] ∧
    (octChildBounds ⟨⟨0, 0, 0⟩, ⟨2, 2, 2⟩⟩).get? 0 =
      some ⟨⟨0, 0, 0⟩, ⟨1, 1, 1⟩⟩ ∧
    Box.contains ⟨⟨0, 0, 0⟩, ⟨1, 1, 1⟩⟩ ⟨1, 1, 1⟩ = true ∧
    (⟨⟨1, 1, 1⟩, ⟨2, 2, 2⟩⟩ : Box) ≠ ⟨⟨0, 0, 0⟩, ⟨1, 1, 1⟩⟩ := by decide

lemma rankOf_get? : ∀ (l : List Nat) (v r : Nat),
    rankOf l v = some r → l[r]? = some v := by
  intro l
  induction l with
  | nil => intro v r h; simp [rankOf] at h
  | cons w ws ih =>
    intro v r h
    unfold rankOf at h
    by_cases hw : w = v
    · simp [hw] at h
      subst h
      simp [hw]
    · simp [hw] at h
      obtain ⟨r2, hr2, rfl⟩ := h
      simpa using ih v r2 hr2

lemma rankOf_isSome_of_mem {l : List Nat} {v : Nat} (h : v ∈ l) :
    ∃ r, rankOf l v = some r := by
  induction l with
  | nil => simp at h
  | cons w ws ih =>
    by_cases hw : w = v
    · exact ⟨0, by simp [rankOf, hw]⟩
    · rcases List.mem_cons.mp h with rfl | h2
      · exact absurd rfl hw
      · obtain ⟨r, hr⟩ := ih h2
        exact ⟨r + 1, by simp [rankOf, hw, hr]⟩

lemma rankOf_of_nodup_get? : ∀ (l : List Nat), l.Nodup → ∀ (j v : Nat),
    l[j]? = some v → rankOf l v = some j := by
  intro l
  induction l with
  | nil => intro _ j v h; simp at h
  | cons w ws ih =>
    intro hnd j v h
    match j with
    | 0 =>
      simp at h
      simp [rankOf, h]
    | j + 1 =>
      simp at h
      have hv : v ∈ ws := List.getElem?_mem h
      have hwv : w ≠ v := by
        intro hE
        subst hE
        exact (List.nodup_cons.mp hnd).1 hv
      simp [rankOf, hwv, ih (List.nodup_cons.mp hnd).2 j v h]

lemma mem_usedSorted {m : MeshA} {tris : List Nat} {v : Nat} :
    v ∈ m.usedSorted tris ↔
      v < m.vertices.positions.length ∧ v ∈ m.usedOf tris := by
  simp [MeshA.usedSorted, List.mem_filter, List.elem_iff]

lemma usedSorted_nodup (m : MeshA) (tris : List Nat) :
    (m.usedSorted tris).Nodup :=
  (List.nodup_range _).filter _

lemma mem_usedOf {m : MeshA} {tris : List Nat} {v : Nat} :
    v ∈ m.usedOf tris ↔
      ∃ t ∈ tris, m.subsetGuard t = true ∧
        (v = m.triIdx t 0 ∨ v = m.triIdx t 1 ∨ v = m.triIdx t 2) := by
  simp only [MeshA.usedOf, List.mem_flatten, List.mem_map, List.mem_filter]
  constructor
  · rintro ⟨l, ⟨t, ⟨ht, hg⟩, rfl⟩, hv⟩
    refine ⟨t, ht, hg, ?_⟩
    simpa using hv
  · rintro ⟨t, ht, hg, hv⟩
    exact ⟨[m.triIdx t 0, m.triIdx t 1, m.triIdx t 2],
      ⟨t, ⟨ht, hg⟩, rfl⟩, by simpa using hv⟩

lemma subsetGuard_nowrap {m : MeshA} {t : Nat} (h : t * 3 + 2 < 2 ^ 32) :
    m.subsetGuard t = decide (t * 3 + 2 < m.indices.length) := by
  unfold MeshA.subsetGuard
  rw [Nat.mod_eq_of_lt h]

lemma triIdx_nowrap {m : MeshA} {t r : Nat} (hr : r ≤ 2)
    (h : t * 3 + 2 < 2 ^ 32) :
    m.triIdx t r = m.indices.getD (t * 3 + r) 0 := by
  unfold MeshA.triIdx
  rw [Nat.mod_eq_of_lt (by omega)]

lemma flatten_const3_getElem? :
    ∀ (L : List (List Nat)), (∀ l ∈ L, l.length = 3) → ∀ (k r : Nat),
      r < 3 → (L.flatten)[3 * k + r]? = (L[k]?).bind (fun l => l[r]?) := by
  intro L
  induction L with
  | nil => intro _ k r _; simp
  | cons l L ih =>
    intro h k r hr
    have hl : l.length = 3 := h l (by simp)
    match k with
    | 0 =>
      simp only [List.flatten_cons]
      rw [List.getElem?_append, if_pos (by omega)]
      simp
    | k + 1 =>
      simp only [List.flatten_cons]
      have he : 3 * (k + 1) + r = l.length + (3 * k + r) := by omega
      rw [he, List.getElem?_append, if_neg (by omega)]
      have he2 : l.length + (3 * k + r) - l.length = 3 * k + r := by omega
      rw [he2, ih (fun x hx => h x (by simp [hx])) k r hr]
      simp

lemma flatten_const3_length :
    ∀ (L : List (List Nat)), (∀ l ∈ L, l.length = 3) →
      L.flatten.length = 3 * L.length := by
  intro L
  induction L with
  | nil => intro _; simp
  | cons l L ih =>
    intro h
    simp only [List.flatten_cons, List.length_append, List.length_cons,
      ih (fun x hx => h x (by simp [hx])), h l (by simp)]
    omega

lemma triIdx_mem {m : MeshA} {t r : Nat} (hr : r ≤ 2)
    (hnw : t * 3 + 2 < 2 ^ 32) (hlt : t * 3 + 2 < m.indices.length) :
    m.triIdx t r ∈ m.indices := by
  rw [triIdx_nowrap hr hnw]
  rw [List.getD_eq_getElem?_getD]
  have hlt2 : t * 3 + r < m.indices.length := by omega
  rw [List.getElem?_eq_getElem hlt2]
  exact List.getElem_mem _

lemma subset_blocks {m : MeshA} {tris : List Nat} (hwf : m.wf)
    (hw : ∀ t ∈ tris, t * 3 + 2 < 2 ^ 32) :
    ∀ t ∈ tris.filter m.subsetGuard,
      ∀ r ≤ 2, ∃ a, rankOf (m.usedSorted tris) (m.triIdx t r) = some a := by
  intro t ht r hr
  rw [List.mem_filter] at ht
  obtain ⟨htm, hg⟩ := ht
  have hnw := hw t htm
  have hlt : t * 3 + 2 < m.indices.length := by
    rw [subsetGuard_nowrap hnw] at hg
    exact of_decide_eq_true hg
  apply rankOf_isSome_of_mem
  rw [mem_usedSorted]
  refine ⟨hwf _ (triIdx_mem hr hnw hlt), ?_⟩
  rw [mem_usedOf]
  refine ⟨t, htm, hg, ?_⟩
  interval_cases r
  · exact Or.inl rfl
  · exact Or.inr (Or.inl rfl)
  · exact Or.inr (Or.inr rfl)

lemma subsetIndices_blocks_len {m : MeshA} {tris : List Nat} (hwf : m.wf)
    (hw : ∀ t ∈ tris, t * 3 + 2 < 2 ^ 32) :
    ∀ l ∈ (tris.filter m.subsetGuard).map (fun t =>
      match rankOf (m.usedSorted tris) (m.triIdx t 0),
            rankOf (m.usedSorted tris) (m.triIdx t 1),
            rankOf (m.usedSorted tris) (m.triIdx t 2) with
      | some a, some b, some c => [a, b, c]
      | _, _, _ => []), l.length = 3 := by
  intro l hl
  rw [List.mem_map] at hl
  obtain ⟨t, ht, rfl⟩ := hl
  obtain ⟨a, ha⟩ := subset_blocks hwf hw t ht 0 (by omega)
  obtain ⟨b, hb⟩ := subset_blocks hwf hw t ht 1 (by omega)
  obtain ⟨c, hc⟩ := subset_blocks hwf hw t ht 2 (by omega)
  simp [ha, hb, hc]

lemma subset_compact {m : MeshA} {tris : List Nat} (hwf : m.wf)
    (hw : ∀ t ∈ tris, t * 3 + 2 < 2 ^ 32) :
    (m.subset tris).compactB = true := by
  by_cases hcond : (tris.isEmpty || m.indices.isEmpty) = true
  · simp [MeshA.subset, hcond]
    decide
  · simp only [MeshA.subset, hcond, if_neg, Bool.false_eq_true,
      not_false_iff, if_false]
    rw [MeshA.compactB, List.all_eq_true]
    intro j hj
    rw [List.mem_range] at hj
    have hj2 : j < (m.usedSorted tris).length := by
      simpa [MeshA.vertexCount, VertexAttributes.size, MeshA.subsetVerts] using hj
    have hget : (m.usedSorted tris)[j]? = some ((m.usedSorted tris)[j]) :=
      List.getElem?_eq_getElem hj2
    set v := (m.usedSorted tris)[j] with hv
    have hvmem : v ∈ m.usedSorted tris := List.getElem_mem hj2
    have hrankv : rankOf (m.usedSorted tris) v = some j :=
      rankOf_of_nodup_get? _ (usedSorted_nodup m tris) j v hget
    obtain ⟨hvN, hvused⟩ := mem_usedSorted.mp hvmem
    obtain ⟨t, htm, hg, hcase⟩ := mem_usedOf.mp hvused
    have htf : t ∈ tris.filter m.subsetGuard :=
      List.mem_filter.mpr ⟨htm, hg⟩
    obtain ⟨a, ha⟩ := subset_blocks hwf hw t htf 0 (by omega)
    obtain ⟨b, hb⟩ := subset_blocks hwf hw t htf 1 (by omega)
    obtain ⟨c, hc⟩ := subset_blocks hwf hw t htf 2 (by omega)
    have hjmem : j ∈ ([a, b, c] : List Nat) := by
      rcases hcase with h0 | h1 | h2
      · rw [h0] at hrankv
        rw [ha] at hrankv
        simp at hrankv
        simp [hrankv]
      · rw [h1] at hrankv
        rw [hb] at hrankv
        simp at hrankv
        simp [hrankv]
      · rw [h2] at hrankv
        rw [hc] at hrankv
        simp at hrankv
        simp [hrankv]
    have hblock : ([a, b, c] : List Nat) ∈
        (tris.filter m.subsetGuard).map (fun t =>
          match rankOf (m.usedSorted tris) (m.triIdx t 0),
                rankOf (m.usedSorted tris) (m.triIdx t 1),
                rankOf (m.usedSorted tris) (m.triIdx t 2) with
          | some a, some b, some c => [a, b, c]
          | _, _, _ => []) := by
      rw [List.mem_map]
      exact ⟨t, htf, by simp [ha, hb, hc]⟩
    have : j ∈ m.subsetIndices tris := by
      rw [MeshA.subsetIndices, List.mem_flatten]
      exact ⟨[a, b, c], hblock, hjmem⟩
    simpa [List.elem_iff] using this

lemma getD_of_getElem? {α : Type} {l : List α} {n : Nat} {a d : α}
    (h : l[n]? = some a) : l.getD n d = a := by
  rw [List.getD_eq_getElem?_getD, h]
  rfl

lemma subsetReadsOK_of_nowrap {m : MeshA} {tris : List Nat}
    (hw : ∀ t ∈ tris, t * 3 + 2 < 2 ^ 32) :
    m.subsetReadsOK tris = true := by
  rw [MeshA.subsetReadsOK, List.all_eq_true]
  intro t ht
  rw [List.mem_filter] at ht
  obtain ⟨htm, hg⟩ := ht
  have hnw := hw t htm
  have hlt : t * 3 + 2 < m.indices.length := by
    rw [subsetGuard_nowrap hnw] at hg
    exact of_decide_eq_true hg
  have h0 : (t * 3) % 2 ^ 32 = t * 3 := Nat.mod_eq_of_lt (by omega)
  have h1 : (t * 3 + 1) % 2 ^ 32 = t * 3 + 1 := Nat.mod_eq_of_lt (by omega)
  have h2 : (t * 3 + 2) % 2 ^ 32 = t * 3 + 2 := Nat.mod_eq_of_lt (by omega)
  simp only [h0, h1, h2, Bool.and_eq_true, decide_eq_true_eq]
  omega

lemma filter_guard_nowrap {m : MeshA} {tris : List Nat}
    (hw : ∀ t ∈ tris, t * 3 + 2 < 2 ^ 32) :
    tris.filter m.subsetGuard =
      tris.filter (fun t => decide (t * 3 + 2 < m.indices.length)) :=
  List.filter_congr (fun t ht => by rw [subsetGuard_nowrap (hw t ht)])

lemma subset_length {m : MeshA} {tris : List Nat} (hwf : m.wf)
    (hw : ∀ t ∈ tris, t * 3 + 2 < 2 ^ 32) :
    (m.subset tris).indices.length =
      3 * (tris.filter (fun t =>
        decide (t * 3 + 2 < m.indices.length))).length := by
  by_cases hcond : (tris.isEmpty || m.indices.isEmpty) = true
  · have hnil : tris.filter (fun t =>
        decide (t * 3 + 2 < m.indices.length)) = [] := by
      rw [List.filter_eq_nil_iff]
      intro t ht
      simp only [Bool.or_eq_true, List.isEmpty_iff] at hcond
      rcases hcond with h | h
      · subst h
        simp at ht
      · simp [h]
    simp [MeshA.subset, hcond, hnil, MeshA.emptyMesh]
  · simp only [MeshA.subset, hcond, Bool.false_eq_true, not_false_iff,
      if_false]
    rw [← filter_guard_nowrap hw, MeshA.subsetIndices,
      flatten_const3_length _ (subsetIndices_blocks_len hwf hw),
      List.length_map]

lemma subset_corner {m : MeshA} {tris : List Nat} (hwf : m.wf)
    (hw : ∀ t ∈ tris, t * 3 + 2 < 2 ^ 32) (k r : Nat)
    (hk : k < (tris.filter (fun t =>
      decide (t * 3 + 2 < m.indices.length))).length) (hr : r < 3) :
    (m.subset tris).vertices.positions.getD
        ((m.subset tris).indices.getD (3 * k + r) 0) vzero =
      m.vertices.positions.getD
        (m.indices.getD
          (3 * ((tris.filter (fun t =>
            decide (t * 3 + 2 < m.indices.length))).getD k 0) + r) 0)
        vzero := by
  rw [← filter_guard_nowrap hw] at hk ⊢
  obtain ⟨t, htk⟩ : ∃ t, (tris.filter m.subsetGuard)[k]? = some t :=
    ⟨_, List.getElem?_eq_getElem hk⟩
  have htmem : t ∈ tris.filter m.subsetGuard := List.getElem?_mem htk
  have htris : t ∈ tris := (List.mem_filter.mp htmem).1
  have hg : m.subsetGuard t = true := (List.mem_filter.mp htmem).2
  have hnw := hw t htris
  have hlt : t * 3 + 2 < m.indices.length := by
    rw [subsetGuard_nowrap hnw] at hg
    exact of_decide_eq_true hg
  have hcond : (tris.isEmpty || m.indices.isEmpty) = false := by
    simp only [Bool.or_eq_false_iff]
    refine ⟨?_, ?_⟩
    · rcases tris with _ | _
      · simp at htris
      · rfl
    · rcases hm : m.indices with _ | _
      · rw [hm] at hlt
        simp at hlt
      · rfl
  have hsub : m.subset tris = ⟨m.subsetVerts tris, m.subsetIndices tris⟩ := by
    simp [MeshA.subset, hcond]
  rw [hsub, getD_of_getElem? htk]
  obtain ⟨a, ha⟩ := subset_blocks hwf hw t htmem 0 (by omega)
  obtain ⟨b, hb⟩ := subset_blocks hwf hw t htmem 1 (by omega)
  obtain ⟨c, hc⟩ := subset_blocks hwf hw t htmem 2 (by omega)
  have hblocks := subsetIndices_blocks_len hwf hw
  have hmapk : ((tris.filter m.subsetGuard).map (fun t =>
      match rankOf (m.usedSorted tris) (m.triIdx t 0),
            rankOf (m.usedSorted tris) (m.triIdx t 1),
            rankOf (m.usedSorted tris) (m.triIdx t 2) with
      | some a, some b, some c => [a, b, c]
      | _, _, _ => []))[k]? = some [a, b, c] := by
    rw [List.getElem?_map, htk]
    simp [ha, hb, hc]
  have hflat : ∀ rr, rr < 3 →
      (m.subsetIndices tris)[3 * k + rr]? = ([a, b, c] : List Nat)[rr]? := by
    intro rr hrr
    unfold MeshA.subsetIndices
    rw [flatten_const3_getElem? _ hblocks k rr hrr, hmapk]
    rfl
  have hcorner : ∀ (rr j : Nat), rr ≤ 2 →
      rankOf (m.usedSorted tris) (m.triIdx t rr) = some j →
      (m.subsetVerts tris).positions.getD j vzero =
        m.vertices.positions.getD (m.indices.getD (3 * t + rr) 0) vzero := by
    intro rr j hrr hj
    have hus := rankOf_get? _ _ _ hj
    have hmap : ((m.usedSorted tris).map
        (fun v => m.vertices.positions.getD v vzero))[j]? =
        some (m.vertices.positions.getD (m.triIdx t rr) vzero) := by
      rw [List.getElem?_map, hus]
      rfl
    have hpos : (m.subsetVerts tris).positions =
        (m.usedSorted tris).map (fun v => m.vertices.positions.getD v vzero) := by
      simp [MeshA.subsetVerts]
    rw [hpos, getD_of_getElem? hmap, triIdx_nowrap hrr hnw, Nat.mul_comm 3 t]
  interval_cases r
  · rw [show (3 * k + 0 : Nat) = 3 * k + 0 from rfl,
      getD_of_getElem? ((hflat 0 (by omega)).trans rfl)]
    exact hcorner 0 a (by omega) ha
  · rw [getD_of_getElem? ((hflat 1 (by omega)).trans rfl)]
    exact hcorner 1 b (by omega) hb
  · rw [getD_of_getElem? ((hflat 2 (by omega)).trans rfl)]
    exact hcorner 2 c (by omega) hc

/-- C3, amended: vertex-buffer compactness holds for `Mesh::subset` (for
a well-formed mesh and non-wrapping triangle ids), but `simplifyMesh`
always returns the input vertex buffer unchanged, so its output can
retain unreferenced vertices. -/
theorem C3_compact_subset_only :
    (∀ (m : MeshA) (tris : List Nat), m.wf →
      (∀ t ∈ tris, t * 3 + 2 < 2 ^ 32) →
      (m.subset tris).compactB = true) ∧
    ∀ (kernel : SimplifyKernel) (m : MeshA) (target : Nat),
      (simplifyMesh kernel m target).vertices = m.vertices :=
  ⟨fun _ _ hwf hw => subset_compact hwf hw,
   fun kernel m target => by
     unfold simplifyMesh
     by_cases h : (m.emptyM || decide (m.triangleCount ≤ target)) = true
     · rw [if_pos h]
     · rw [if_neg h]⟩

/-- C3, witness for `C3_compact_subset_only` at concrete inputs. -/
theorem C3_compact_subset_only_witness :
    (exMeshQuad.subset [0, 1]).compactB = true ∧
    (simplifyMesh meshoptSimplifyModel exTriMesh 0).vertices =
      exTriMesh.vertices :=
  ⟨C3_compact_subset_only.1 exMeshQuad [0, 1] (by unfold MeshA.wf; decide) (by decide),
   C3_compact_subset_only.2 meshoptSimplifyModel exTriMesh 0⟩

/-- C10, amended: for triangle ids `t` with `3t + 2 < 2³²` (so the
32-bit guard arithmetic does not wrap) on a well-formed mesh, `subset`
performs no out-of-bounds read (the checked variant succeeds), ids whose
triple would extend past the index buffer are skipped, the output
contains exactly the in-range listed triangles in order — the index
buffer has three entries per in-range id and the `k`-th output triangle
has the corner positions of the `k`-th in-range listed triangle — and
the empty list yields the empty mesh. -/
theorem C10_subset_guarded (m : MeshA) (tris : List Nat) (hwf : m.wf)
    (hw : ∀ t ∈ tris, t * 3 + 2 < 2 ^ 32) :
    m.subsetChecked tris = some (m.subset tris) ∧
    (m.subset tris).indices.length =
      3 * (tris.filter (fun t =>
        decide (t * 3 + 2 < m.indices.length))).length ∧
    (∀ k r, k < (tris.filter (fun t =>
        decide (t * 3 + 2 < m.indices.length))).length → r < 3 →
      (m.subset tris).vertices.positions.getD
          ((m.subset tris).indices.getD (3 * k + r) 0) vzero =
        m.vertices.positions.getD
          (m.indices.getD
            (3 * ((tris.filter (fun t =>
              decide (t * 3 + 2 < m.indices.length))).getD k 0) + r) 0)
          vzero) ∧
    m.subset [] = MeshA.emptyMesh := by
  refine ⟨?_, subset_length hwf hw, ?_, rfl⟩
  · unfold MeshA.subsetChecked
    rw [subsetReadsOK_of_nowrap hw]
    rfl
  · intro k r hk hr
    exact subset_corner hwf hw k r hk hr

/-- C10, witness for `C10_subset_guarded` at a concrete quad mesh with
one in-range and one out-of-range listed id. -/
theorem C10_subset_guarded_witness :
    exMeshQuad.subsetChecked [1, 7] = some (exMeshQuad.subset [1, 7]) ∧
    (exMeshQuad.subset [1, 7]).indices.length =
      3 * ([1, 7].filter (fun t =>
        decide (t * 3 + 2 < exMeshQuad.indices.length))).length ∧
    (∀ k r, k < ([1, 7].filter (fun t =>
        decide (t * 3 + 2 < exMeshQuad.indices.length))).length → r < 3 →
      (exMeshQuad.subset [1, 7]).vertices.positions.getD
          ((exMeshQuad.subset [1, 7]).indices.getD (3 * k + r) 0) vzero =
        exMeshQuad.vertices.positions.getD
          (exMeshQuad.indices.getD
            (3 * (([1, 7].filter (fun t =>
              decide (t * 3 + 2 < exMeshQuad.indices.length))).getD k 0)
              + r) 0) vzero) ∧
    exMeshQuad.subset [] = MeshA.emptyMesh :=
  C10_subset_guarded exMeshQuad [1, 7] (by unfold MeshA.wf; decide) (by decide)

lemma getElem?_lt_length {α : Type} {l : List α} {j : Nat} {a : α}
    (h : l[j]? = some a) : j < l.length := by
  rw [List.getElem?_eq_some] at h
  exact h.1

lemma octChildBounds_getElem? (b : Box) (bx by_ bz : Bool) :
    (octChildBounds b)[(cond bx 1 0) + (cond by_ 2 0) + (cond bz 4 0)]? =
      some (octChildBox b bx by_ bz) := by
  cases bx <;> cases by_ <;> cases bz <;> rfl

lemma childIndexOf_eq (c t : Vec3) :
    childIndexOf c t =
      (cond (decide (c.x ≤ t.x)) 1 0) + (cond (decide (c.y ≤ t.y)) 2 0) +
        (cond (decide (c.z ≤ t.z)) 4 0) := by
  unfold childIndexOf
  by_cases hx : c.x ≤ t.x <;> by_cases hy : c.y ≤ t.y <;>
    by_cases hz : c.z ≤ t.z <;>
    simp [hx, hy, hz, ge_iff_le]

/-- C7, amended: for a centroid contained in the node's bounds, the
centroid-based router picks, per axis, the upper half exactly when the
coordinate is `≥` the centre — which makes the chosen child the
highest-index child whose closed sub-bounds contains the centroid (a tie
on a subdivision plane goes to the higher-index child, not the lowest). -/
theorem C7_routing (b : Box) (t : Vec3) (hb : b.contains t = true) :
    (octChildBounds b)[childIndexOf (octCenter b) t]? =
      some (octChildBox b (decide ((octCenter b).x ≤ t.x))
        (decide ((octCenter b).y ≤ t.y)) (decide ((octCenter b).z ≤ t.z))) ∧
    (octChildBox b (decide ((octCenter b).x ≤ t.x))
        (decide ((octCenter b).y ≤ t.y))
        (decide ((octCenter b).z ≤ t.z))).contains t = true ∧
    ∀ j cb2, (octChildBounds b)[j]? = some cb2 →
      cb2.contains t = true → j ≤ childIndexOf (octCenter b) t := by
  simp only [Box.contains, Bool.and_eq_true, decide_eq_true_eq,
    ge_iff_le] at hb
  obtain ⟨⟨⟨⟨⟨hx1, hx2⟩, hy1⟩, hy2⟩, hz1⟩, hz2⟩ := hb
  refine ⟨by rw [childIndexOf_eq]; exact octChildBounds_getElem? b _ _ _,
    ?_, ?_⟩
  · by_cases hx : (b.min.x + b.max.x) / 2 ≤ t.x <;>
      by_cases hy : (b.min.y + b.max.y) / 2 ≤ t.y <;>
      by_cases hz : (b.min.z + b.max.z) / 2 ≤ t.z <;>
    · simp only [hx, hy, hz, decide_eq_true_eq, decide_eq_false_iff_not,
        decide_True, decide_False, decide_True, decide_False,
        octChildBox, octCenter, cond_true, cond_false, Box.contains,
        Bool.and_eq_true, ge_iff_le]
      and_intros <;> first
      | trivial
      | linarith
  · intro j cb2 hj hcont
    have hj8 : j < 8 := by
      have hl := getElem?_lt_length hj
      simpa [octChildBounds] using hl
    rw [childIndexOf_eq]
    by_cases hx : (b.min.x + b.max.x) / 2 ≤ t.x <;>
      by_cases hy : (b.min.y + b.max.y) / 2 ≤ t.y <;>
      by_cases hz : (b.min.z + b.max.z) / 2 ≤ t.z <;>
    · simp only [octCenter, hx, hy, hz, decide_True, decide_False,
        cond_true, cond_false]
      interval_cases j <;>
      · simp only [octChildBounds, octCenter, List.getElem?_cons_zero,
          List.getElem?_cons_succ, Option.some.injEq] at hj
        subst hj
        simp only [Box.contains, Bool.and_eq_true, decide_eq_true_eq,
          ge_iff_le] at hcont
        obtain ⟨⟨⟨⟨⟨gx1, gx2⟩, gy1⟩, gy2⟩, gz1⟩, gz2⟩ := hcont
        first
        | omega
        | (exfalso; linarith)


/-- C7, witness for `C7_routing` at the box `[0,2]³` and the centroid
`(1,1,1)` lying exactly on all three subdivision planes. -/
theorem C7_routing_witness :
    (octChildBounds ⟨⟨0, 0, 0⟩, ⟨2, 2, 2⟩⟩)[childIndexOf
        (octCenter ⟨⟨0, 0, 0⟩, ⟨2, 2, 2⟩⟩) ⟨1, 1, 1⟩]? =
      some (octChildBox ⟨⟨0, 0, 0⟩, ⟨2, 2, 2⟩⟩
        (decide ((octCenter ⟨⟨0, 0, 0⟩, ⟨2, 2, 2⟩⟩).x ≤ (⟨1, 1, 1⟩ : Vec3).x))
        (decide ((octCenter ⟨⟨0, 0, 0⟩, ⟨2, 2, 2⟩⟩).y ≤ (⟨1, 1, 1⟩ : Vec3).y))
        (decide ((octCenter ⟨⟨0, 0, 0⟩, ⟨2, 2, 2⟩⟩).z ≤ (⟨1, 1, 1⟩ : Vec3).z))) ∧
    (octChildBox ⟨⟨0, 0, 0⟩, ⟨2, 2, 2⟩⟩
        (decide ((octCenter ⟨⟨0, 0, 0⟩, ⟨2, 2, 2⟩⟩).x ≤ (⟨1, 1, 1⟩ : Vec3).x))
        (decide ((octCenter ⟨⟨0, 0, 0⟩, ⟨2, 2, 2⟩⟩).y ≤ (⟨1, 1, 1⟩ : Vec3).y))
        (decide ((octCenter ⟨⟨0, 0, 0⟩, ⟨2, 2, 2⟩⟩).z ≤
          (⟨1, 1, 1⟩ : Vec3).z))).contains ⟨1, 1, 1⟩ = true ∧
    ∀ j cb2, (octChildBounds ⟨⟨0, 0, 0⟩, ⟨2, 2, 2⟩⟩)[j]? = some cb2 →
      cb2.contains ⟨1, 1, 1⟩ = true →
      j ≤ childIndexOf (octCenter ⟨⟨0, 0, 0⟩, ⟨2, 2, 2⟩⟩) ⟨1, 1, 1⟩ :=
  C7_routing ⟨⟨0, 0, 0⟩, ⟨2, 2, 2⟩⟩ ⟨1, 1, 1⟩ (by decide)

lemma subdivide_getElem?_bits (b : Box) (bx by_ bz : Bool) :
    (b.subdivide)[(cond bx 1 0) + (cond by_ 2 0) + (cond bz 4 0)]? =
      some (childBox b bx by_ bz) := by
  cases bx <;> cases by_ <;> cases bz <;> rfl

lemma childBox_mem (b : Box) (bx by_ bz : Bool) :
    childBox b bx by_ bz ∈ b.subdivide :=
  List.getElem?_mem (subdivide_getElem?_bits b bx by_ bz)

lemma emptyB_false (b : Box) (hb : b.emptyB = false) :
    b.min.x < b.max.x ∧ b.min.y < b.max.y ∧ b.min.z < b.max.z := by
  simp only [Box.emptyB, Bool.or_eq_false_iff, decide_eq_false_iff_not,
    not_le, ge_iff_le] at hb
  exact ⟨hb.1.1, hb.1.2, hb.2⟩

lemma subdivide_union (b : Box) (hb : b.emptyB = false) (p : Vec3) :
    b.contains p = true ↔ ∃ cb ∈ b.subdivide, cb.contains p = true := by
  obtain ⟨hbx, hby, hbz⟩ := emptyB_false b hb
  constructor
  · intro hp
    simp only [Box.contains, Bool.and_eq_true, decide_eq_true_eq,
      ge_iff_le] at hp
    obtain ⟨⟨⟨⟨⟨hx1, hx2⟩, hy1⟩, hy2⟩, hz1⟩, hz2⟩ := hp
    refine ⟨childBox b (!decide (p.x ≤ b.center.x))
      (!decide (p.y ≤ b.center.y)) (!decide (p.z ≤ b.center.z)),
      childBox_mem b _ _ _, ?_⟩
    by_cases hx : p.x ≤ (b.min.x + b.max.x) * (1/2) <;>
      by_cases hy : p.y ≤ (b.min.y + b.max.y) * (1/2) <;>
      by_cases hz : p.z ≤ (b.min.z + b.max.z) * (1/2) <;>
    · simp only [childBox, Box.center, Box.contains, hx, hy, hz,
        decide_True, decide_False, Bool.not_true, Bool.not_false,
        if_true, if_false, Bool.and_eq_true, decide_eq_true_eq,
        ge_iff_le, ite_true, ite_false]
      and_intros <;> first
      | trivial
      | linarith
  · rintro ⟨cb, hmem, hc⟩
    simp only [Box.subdivide, List.mem_cons, List.not_mem_nil, or_false] at hmem
    rcases hmem with rfl | rfl | rfl | rfl | rfl | rfl | rfl | rfl <;>
    · simp only [Box.contains, Box.center, Bool.and_eq_true,
        decide_eq_true_eq, ge_iff_le] at hc ⊢
      obtain ⟨⟨⟨⟨⟨hx1, hx2⟩, hy1⟩, hy2⟩, hz1⟩, hz2⟩ := hc
      and_intros <;> linarith



lemma subdivide_interior_disjoint (b : Box) :
    ∀ (i j : Nat) (ci cj : Box), (b.subdivide)[i]? = some ci → (b.subdivide)[j]? = some cj →
      i ≠ j → ∀ p : Vec3,
        ¬(ci.interior p = true ∧ cj.interior p = true) := by
  intro i j ci cj hi hj hne p hcontra
  have hi8 : i < 8 := by
    have hl := getElem?_lt_length hi
    simpa [Box.subdivide] using hl
  have hj8 : j < 8 := by
    have hl := getElem?_lt_length hj
    simpa [Box.subdivide] using hl
  obtain ⟨h1, h2⟩ := hcontra
  interval_cases i <;> interval_cases j <;>
    first
    | exact hne rfl
    | (simp only [Box.subdivide, Box.center, List.getElem?_cons_zero,
        List.getElem?_cons_succ, Option.some.injEq] at hi hj
       subst hi
       subst hj
       simp only [Box.interior, Bool.and_eq_true, decide_eq_true_eq] at h1 h2
       obtain ⟨⟨⟨⟨⟨a1, a2⟩, a3⟩, a4⟩, a5⟩, a6⟩ := h1
       obtain ⟨⟨⟨⟨⟨c1, c2⟩, c3⟩, c4⟩, c5⟩, c6⟩ := h2
       linarith)



lemma geo_subdivide_union (g : GeoBBox) (hg : g.emptyG = false)
    (lon lat : ℚ) :
    g.contains lon lat = true ↔
      ∃ cg ∈ g.subdivide, cg.contains lon lat = true := by
  have hgx : g.minLon < g.maxLon ∧ g.minLat < g.maxLat := by
    simp only [GeoBBox.emptyG, GeoBBox.width, GeoBBox.height,
      Bool.or_eq_false_iff, decide_eq_false_iff_not, not_le] at hg
    constructor <;> linarith [hg.1, hg.2]
  obtain ⟨hgx1, hgx2⟩ := hgx
  constructor
  · intro hp
    simp only [GeoBBox.contains, Bool.and_eq_true, decide_eq_true_eq,
      ge_iff_le] at hp
    obtain ⟨⟨⟨h1, h2⟩, h3⟩, h4⟩ := hp
    by_cases hx : lon ≤ (g.minLon + g.maxLon) * (1/2) <;>
      by_cases hy : lat ≤ (g.minLat + g.maxLat) * (1/2)
    · refine ⟨⟨g.minLon, g.minLat, g.centerLon, g.centerLat⟩, by
        simp [GeoBBox.subdivide], ?_⟩
      simp only [GeoBBox.contains, GeoBBox.centerLon, GeoBBox.centerLat,
        Bool.and_eq_true, decide_eq_true_eq, ge_iff_le]
      and_intros <;> linarith
    · refine ⟨⟨g.minLon, g.centerLat, g.centerLon, g.maxLat⟩, by
        simp [GeoBBox.subdivide], ?_⟩
      simp only [GeoBBox.contains, GeoBBox.centerLon, GeoBBox.centerLat,
        Bool.and_eq_true, decide_eq_true_eq, ge_iff_le]
      and_intros <;> linarith
    · refine ⟨⟨g.centerLon, g.minLat, g.maxLon, g.centerLat⟩, by
        simp [GeoBBox.subdivide], ?_⟩
      simp only [GeoBBox.contains, GeoBBox.centerLon, GeoBBox.centerLat,
        Bool.and_eq_true, decide_eq_true_eq, ge_iff_le]
      and_intros <;> linarith
    · refine ⟨⟨g.centerLon, g.centerLat, g.maxLon, g.maxLat⟩, by
        simp [GeoBBox.subdivide], ?_⟩
      simp only [GeoBBox.contains, GeoBBox.centerLon, GeoBBox.centerLat,
        Bool.and_eq_true, decide_eq_true_eq, ge_iff_le]
      and_intros <;> linarith
  · rintro ⟨cg, hmem, hc⟩
    simp only [GeoBBox.subdivide, GeoBBox.centerLon, GeoBBox.centerLat,
      List.mem_cons, List.not_mem_nil, or_false] at hmem
    rcases hmem with rfl | rfl | rfl | rfl <;>
    · simp only [GeoBBox.contains, Bool.and_eq_true, decide_eq_true_eq,
        ge_iff_le] at hc ⊢
      obtain ⟨⟨⟨h1, h2⟩, h3⟩, h4⟩ := hc
      and_intros <;> linarith

lemma geo_subdivide_interior_disjoint (g : GeoBBox) :
    ∀ (i j : Nat) (ci cj : GeoBBox), (g.subdivide)[i]? = some ci →
      (g.subdivide)[j]? = some cj → i ≠ j → ∀ lon lat : ℚ,
        ¬(ci.interior lon lat = true ∧ cj.interior lon lat = true) := by
  intro i j ci cj hi hj hne lon lat hcontra
  have hi4 : i < 4 := by
    have hl := getElem?_lt_length hi
    simpa [GeoBBox.subdivide] using hl
  have hj4 : j < 4 := by
    have hl := getElem?_lt_length hj
    simpa [GeoBBox.subdivide] using hl
  obtain ⟨h1, h2⟩ := hcontra
  interval_cases i <;> interval_cases j <;>
    first
    | exact hne rfl
    | (simp only [GeoBBox.subdivide, GeoBBox.centerLon, GeoBBox.centerLat,
        List.getElem?_cons_zero, List.getElem?_cons_succ,
        Option.some.injEq] at hi hj
       subst hi
       subst hj
       simp only [GeoBBox.interior, Bool.and_eq_true,
         decide_eq_true_eq] at h1 h2
       obtain ⟨⟨⟨a1, a2⟩, a3⟩, a4⟩ := h1
       obtain ⟨⟨⟨c1, c2⟩, c3⟩, c4⟩ := h2
       linarith)

lemma subdivide_getElem?_idx (b : Box) :
    ∀ i, i < 8 → (b.subdivide)[i]? =
      some (childBox b (decide (i % 2 = 1)) (decide (i / 2 % 2 = 1))
        (decide (i / 4 = 1))) := by
  intro i hi
  interval_cases i <;> rfl



/-- C8 (confirmed): for non-empty bounds, `subdivide()` partitions the
bounds — every contained point lies in some sub-box and sub-boxes with
different indices have disjoint interiors — for both the eight-way AABB
split and the four-way GeoRect split; and the AABB children are listed
exactly in the bit-pattern order with x-high as bit 0, y-high as bit 1
and z-high as the most significant bit 2. -/
theorem C8_subdivide_partition (b : Box) (g : GeoBBox)
    (hb : b.emptyB = false) (hg : g.emptyG = false) :
    (∀ p : Vec3, b.contains p = true ↔
      ∃ cb ∈ b.subdivide, cb.contains p = true) ∧
    (∀ (i j : Nat) (ci cj : Box), (b.subdivide)[i]? = some ci →
      (b.subdivide)[j]? = some cj → i ≠ j → ∀ p : Vec3,
        ¬(ci.interior p = true ∧ cj.interior p = true)) ∧
    (∀ i, i < 8 → (b.subdivide)[i]? =
      some (childBox b (decide (i % 2 = 1)) (decide (i / 2 % 2 = 1))
        (decide (i / 4 = 1)))) ∧
    (∀ lon lat : ℚ, g.contains lon lat = true ↔
      ∃ cg ∈ g.subdivide, cg.contains lon lat = true) ∧
    (∀ (i j : Nat) (ci cj : GeoBBox), (g.subdivide)[i]? = some ci →
      (g.subdivide)[j]? = some cj → i ≠ j → ∀ lon lat : ℚ,
        ¬(ci.interior lon lat = true ∧ cj.interior lon lat = true)) :=
  ⟨subdivide_union b hb, subdivide_interior_disjoint b,
   subdivide_getElem?_idx b, geo_subdivide_union g hg,
   geo_subdivide_interior_disjoint g⟩

unseal Rat.inv Rat.mul Rat.add Rat.sub in
/-- C8, witness for `C8_subdivide_partition` at the box `[0,2]³` and the
rectangle `exRegion`. -/
theorem C8_subdivide_partition_witness :
    (∀ p : Vec3, Box.contains ⟨⟨0, 0, 0⟩, ⟨2, 2, 2⟩⟩ p = true ↔
      ∃ cb ∈ Box.subdivide ⟨⟨0, 0, 0⟩, ⟨2, 2, 2⟩⟩,
        cb.contains p = true) ∧
    (∀ (i j : Nat) (ci cj : Box),
      (Box.subdivide ⟨⟨0, 0, 0⟩, ⟨2, 2, 2⟩⟩)[i]? = some ci →
      (Box.subdivide ⟨⟨0, 0, 0⟩, ⟨2, 2, 2⟩⟩)[j]? = some cj → i ≠ j →
      ∀ p : Vec3, ¬(ci.interior p = true ∧ cj.interior p = true)) ∧
    (∀ i, i < 8 → (Box.subdivide ⟨⟨0, 0, 0⟩, ⟨2, 2, 2⟩⟩)[i]? =
      some (childBox ⟨⟨0, 0, 0⟩, ⟨2, 2, 2⟩⟩ (decide (i % 2 = 1))
        (decide (i / 2 % 2 = 1)) (decide (i / 4 = 1)))) ∧
    (∀ lon lat : ℚ, exRegion.contains lon lat = true ↔
      ∃ cg ∈ exRegion.subdivide, cg.contains lon lat = true) ∧
    (∀ (i j : Nat) (ci cj : GeoBBox), (exRegion.subdivide)[i]? = some ci →
      (exRegion.subdivide)[j]? = some cj → i ≠ j → ∀ lon lat : ℚ,
        ¬(ci.interior lon lat = true ∧ cj.interior lon lat = true)) :=
  C8_subdivide_partition ⟨⟨0, 0, 0⟩, ⟨2, 2, 2⟩⟩ exRegion (by decide)
    (by decide)

end Lod

namespace Lod

lemma tib_eq (tri : Vec3 × Vec3 × Vec3) (bounds : Box) :
    triangleIntersectsBounds tri bounds =
      bounds.intersects (computeTriangleBounds tri) := by
  unfold triangleIntersectsBounds
  by_cases hx : bounds.intersects (computeTriangleBounds tri) = true
  · simp [hx]
  · simp only [Bool.not_eq_true] at hx
    simp [hx]

lemma computeTriangleBounds_wf (tri : Vec3 × Vec3 × Vec3) :
    (computeTriangleBounds tri).min.x ≤ (computeTriangleBounds tri).max.x ∧
    (computeTriangleBounds tri).min.y ≤ (computeTriangleBounds tri).max.y ∧
    (computeTriangleBounds tri).min.z ≤ (computeTriangleBounds tri).max.z := by
  simp only [computeTriangleBounds, vmin, vmax]
  refine ⟨?_, ?_, ?_⟩ <;>
    exact le_trans (min_le_right _ _) (le_max_right _ _)

lemma cover_subdivide (b : Box) (tb : Box)
    (hwf : tb.min.x ≤ tb.max.x ∧ tb.min.y ≤ tb.max.y ∧ tb.min.z ≤ tb.max.z)
    (hint : b.intersects tb = true) :
    ∃ cb ∈ b.subdivide, cb.intersects tb = true := by
  obtain ⟨hw1, hw2, hw3⟩ := hwf
  simp only [Box.intersects, Bool.not_eq_true', Bool.or_eq_false_iff,
    decide_eq_false_iff_not, not_lt] at hint
  obtain ⟨⟨⟨⟨⟨i1, i2⟩, i3⟩, i4⟩, i5⟩, i6⟩ := hint
  refine ⟨childBox b (decide ((b.center).x ≤ tb.max.x))
    (decide ((b.center).y ≤ tb.max.y)) (decide ((b.center).z ≤ tb.max.z)),
    childBox_mem b _ _ _, ?_⟩
  by_cases hx : (b.min.x + b.max.x) * (1/2) ≤ tb.max.x <;>
    by_cases hy : (b.min.y + b.max.y) * (1/2) ≤ tb.max.y <;>
    by_cases hz : (b.min.z + b.max.z) * (1/2) ≤ tb.max.z <;>
  · simp only [childBox, Box.center, hx, hy, hz, decide_True,
      decide_False, cond_true, cond_false, Bool.false_eq_true,
      Bool.true_eq_false, if_true, if_false, ite_true, ite_false,
      Box.intersects, Bool.not_eq_true', Bool.or_eq_false_iff,
      decide_eq_false_iff_not, not_lt]
    and_intros <;> first
    | trivial
    | linarith

end Lod

namespace Lod

lemma sum_map_add (cbs : List Box) (f g : Box → Nat) :
    (cbs.map (fun cb => f cb + g cb)).sum =
      (cbs.map f).sum + (cbs.map g).sum := by
  induction cbs with
  | nil => simp
  | cons cb cbs ih => simp [ih]; omega

lemma sum_indicator_pos (cbs : List Box) (q : Box → Bool) (cb : Box)
    (hmem : cb ∈ cbs) (hq : q cb = true) :
    1 ≤ (cbs.map (fun c => if q c then 1 else 0)).sum := by
  induction cbs with
  | nil => simp at hmem
  | cons c cbs ih =>
    rcases List.mem_cons.mp hmem with rfl | h2
    · simp [hq]
    · simp only [List.map_cons, List.sum_cons]
      have := ih h2
      omega

lemma length_le_sum_filter (ts : List Nat) (cbs : List Box)
    (p : Box → Nat → Bool)
    (hcov : ∀ t ∈ ts, ∃ cb ∈ cbs, p cb t = true) :
    ts.length ≤ (cbs.map (fun cb => (ts.filter (p cb ·)).length)).sum := by
  induction ts with
  | nil => simp
  | cons t ts ih =>
    have hlen : ∀ cb : Box, ((t :: ts).filter (p cb ·)).length =
        (ts.filter (p cb ·)).length + (if p cb t then 1 else 0) := by
      intro cb
      by_cases h : p cb t <;> simp [List.filter_cons, h]
    have hmapc : cbs.map (fun cb => ((t :: ts).filter (p cb ·)).length) =
        cbs.map (fun cb => (ts.filter (p cb ·)).length +
          (if p cb t then 1 else 0)) :=
      List.map_congr_left (fun cb _ => hlen cb)
    rw [hmapc, sum_map_add]
    obtain ⟨cb, hcb, hp⟩ := hcov t (by simp)
    have h1 : 1 ≤ (cbs.map (fun cb => if p cb t then 1 else 0)).sum :=
      sum_indicator_pos cbs (fun c => p c t) cb hcb hp
    have h2 := ih (fun t2 ht2 => hcov t2 (by simp [ht2]))
    simp only [List.length_cons]
    omega

lemma leafTriSumList_filterMap (cbs : List Box) (f : Box → Option ONode)
    (w : Box → Nat)
    (h : ∀ cb ∈ cbs, (∀ n, f cb = some n → w cb ≤ n.leafTriSum) ∧
      (f cb = none → w cb = 0)) :
    (cbs.map w).sum ≤ leafTriSumList (cbs.filterMap f) := by
  induction cbs with
  | nil => simp [leafTriSumList]
  | cons cb cbs ih =>
    have hcb := h cb (by simp)
    have hrest := ih (fun c hc => h c (by simp [hc]))
    rcases hf : f cb with _ | n
    · simp only [List.filterMap_cons, hf, List.map_cons, List.sum_cons,
        hcb.2 hf]
      omega
    · simp only [List.filterMap_cons, hf, List.map_cons, List.sum_cons,
        leafTriSumList]
      have := hcb.1 n hf
      omega

lemma inLeafList_of_mem {t : Nat} {n : ONode} {cs : List ONode}
    (hmem : n ∈ cs) (h : n.inLeafB t = true) : inLeafList t cs = true := by
  induction cs with
  | nil => simp at hmem
  | cons c cs ih =>
    rcases List.mem_cons.mp hmem with rfl | h2
    · simp [inLeafList, h]
    · simp [inLeafList, ih h2]

end Lod

namespace Lod

lemma foldl_vmin_init : ∀ (ps : List Vec3) (p : Vec3),
    (ps.foldl vmin p).x ≤ p.x ∧ (ps.foldl vmin p).y ≤ p.y ∧
      (ps.foldl vmin p).z ≤ p.z := by
  intro ps
  induction ps with
  | nil => intro p; simp
  | cons r ps ih =>
    intro p
    obtain ⟨h1, h2, h3⟩ := ih (vmin p r)
    simp only [List.foldl_cons]
    exact ⟨le_trans h1 (min_le_left p.x r.x),
      le_trans h2 (min_le_left p.y r.y),
      le_trans h3 (min_le_left p.z r.z)⟩

lemma foldl_vmin_mem : ∀ (ps : List Vec3) (p q : Vec3), q ∈ ps →
    (ps.foldl vmin p).x ≤ q.x ∧ (ps.foldl vmin p).y ≤ q.y ∧
      (ps.foldl vmin p).z ≤ q.z := by
  intro ps
  induction ps with
  | nil => intro p q hq; simp at hq
  | cons r ps ih =>
    intro p q hq
    simp only [List.foldl_cons]
    rcases List.mem_cons.mp hq with rfl | h2
    · obtain ⟨h1, h2, h3⟩ := foldl_vmin_init ps (vmin p q)
      exact ⟨le_trans h1 (min_le_right p.x q.x),
        le_trans h2 (min_le_right p.y q.y),
        le_trans h3 (min_le_right p.z q.z)⟩
    · exact ih (vmin p r) q h2

lemma foldl_vmax_init : ∀ (ps : List Vec3) (p : Vec3),
    p.x ≤ (ps.foldl vmax p).x ∧ p.y ≤ (ps.foldl vmax p).y ∧
      p.z ≤ (ps.foldl vmax p).z := by
  intro ps
  induction ps with
  | nil => intro p; simp
  | cons r ps ih =>
    intro p
    obtain ⟨h1, h2, h3⟩ := ih (vmax p r)
    simp only [List.foldl_cons]
    exact ⟨le_trans (le_max_left p.x r.x) h1,
      le_trans (le_max_left p.y r.y) h2,
      le_trans (le_max_left p.z r.z) h3⟩

lemma foldl_vmax_mem : ∀ (ps : List Vec3) (p q : Vec3), q ∈ ps →
    q.x ≤ (ps.foldl vmax p).x ∧ q.y ≤ (ps.foldl vmax p).y ∧
      q.z ≤ (ps.foldl vmax p).z := by
  intro ps
  induction ps with
  | nil => intro p q hq; simp at hq
  | cons r ps ih =>
    intro p q hq
    simp only [List.foldl_cons]
    rcases List.mem_cons.mp hq with rfl | h2
    · obtain ⟨h1, h2, h3⟩ := foldl_vmax_init ps (vmax p q)
      exact ⟨le_trans (le_max_right p.x q.x) h1,
        le_trans (le_max_right p.y q.y) h2,
        le_trans (le_max_right p.z q.z) h3⟩
    · exact ih (vmax p r) q h2

lemma computeBoundingBox_bounds (m : MeshA) :
    ∀ v ∈ m.vertices.positions,
      ((computeBoundingBox m).min.x ≤ v.x ∧
       (computeBoundingBox m).min.y ≤ v.y ∧
       (computeBoundingBox m).min.z ≤ v.z) ∧
      (v.x ≤ (computeBoundingBox m).max.x ∧
       v.y ≤ (computeBoundingBox m).max.y ∧
       v.z ≤ (computeBoundingBox m).max.z) := by
  intro v hv
  unfold computeBoundingBox
  rcases hps : m.vertices.positions with _ | ⟨p, ps⟩
  · rw [hps] at hv
    simp at hv
  · rw [hps] at hv
    rcases List.mem_cons.mp hv with rfl | h2
    · exact ⟨foldl_vmin_init ps v, foldl_vmax_init ps v⟩
    · exact ⟨foldl_vmin_mem ps p v h2, foldl_vmax_mem ps p v h2⟩

end Lod

namespace Lod

lemma mem_contains_true {t : Nat} {ts : List Nat} (h : t ∈ ts) :
    ts.contains t = true := by
  simpa [List.elem_iff] using h

lemma subdivideNodeF_sound (m : MeshA) (cfg : OctreeConfig) :
    ∀ (fuel : Nat) (b : Box) (ts : List Nat) (d : Nat),
      (∀ t ∈ ts, m.subsetGuard t = true ∧
        b.intersects (computeTriangleBounds (triA m t)) = true) →
      ts.length ≤ (subdivideNodeF m cfg fuel b ts d).leafTriSum ∧
      ∀ t ∈ ts, (subdivideNodeF m cfg fuel b ts d).inLeafB t = true := by
  intro fuel
  induction fuel with
  | zero =>
    intro b ts d hinv
    constructor
    · simp [subdivideNodeF, ONode.leafTriSum]
    · intro t ht
      simpa [subdivideNodeF, ONode.inLeafB] using ht
  | succ fuel ih =>
    intro b ts d hinv
    by_cases hguard : ts.length ≤ cfg.maxTrianglesPerNode ∨
        cfg.maxDepth ≤ d ∨
        b.volume < cfg.minNodeSize * cfg.minNodeSize * cfg.minNodeSize
    · rw [subdivideNodeF, if_pos hguard]
      constructor
      · simp [ONode.leafTriSum]
      · intro t ht
        simpa [ONode.inLeafB] using ht
    · rw [subdivideNodeF, if_neg hguard]
      simp only []
      have hcov : ∀ t ∈ ts, ∃ cb ∈ b.subdivide,
          (m.subsetGuard t && triangleIntersectsBounds (triA m t) cb)
            = true := by
        intro t ht
        obtain ⟨hg, hint⟩ := hinv t ht
        obtain ⟨cb, hcb, hi⟩ := cover_subdivide b
          (computeTriangleBounds (triA m t)) (computeTriangleBounds_wf _)
          hint
        exact ⟨cb, hcb, by simp [hg, tib_eq, hi]⟩
      have hctinv : ∀ cb ∈ b.subdivide, ∀ t ∈ ts.filter (fun t =>
          m.subsetGuard t && triangleIntersectsBounds (triA m t) cb),
          m.subsetGuard t = true ∧
          cb.intersects (computeTriangleBounds (triA m t)) = true := by
        intro cb hcb t ht
        rw [List.mem_filter] at ht
        obtain ⟨htm, hpt⟩ := ht
        simp only [Bool.and_eq_true] at hpt
        refine ⟨hpt.1, ?_⟩
        rw [← tib_eq]
        exact hpt.2
      by_cases hemp : (b.subdivide.filterMap (fun cb =>
          if (ts.filter (fun t =>
            m.subsetGuard t && triangleIntersectsBounds (triA m t) cb)).isEmpty
          then none
          else some (subdivideNodeF m cfg fuel cb
            (ts.filter (fun t =>
              m.subsetGuard t && triangleIntersectsBounds (triA m t) cb))
            (d + 1)))).isEmpty
      · rw [if_pos hemp]
        constructor
        · simp [ONode.leafTriSum]
        · intro t ht
          simpa [ONode.inLeafB] using ht
      · rw [if_neg hemp]
        have hemp2 : ((b.subdivide.filterMap (fun cb =>
            if (ts.filter (fun t =>
              m.subsetGuard t && triangleIntersectsBounds (triA m t) cb)).isEmpty
            then none
            else some (subdivideNodeF m cfg fuel cb
              (ts.filter (fun t =>
                m.subsetGuard t && triangleIntersectsBounds (triA m t) cb))
              (d + 1)))).isEmpty) = false := by
          simpa using hemp
        constructor
        · rw [ONode.leafTriSum]
          rw [hemp2]
          simp only [Bool.false_eq_true, if_false]
          have h1 := length_le_sum_filter ts b.subdivide
            (fun cb t => m.subsetGuard t &&
              triangleIntersectsBounds (triA m t) cb) hcov
          have h2 := leafTriSumList_filterMap b.subdivide
            (fun cb =>
              if (ts.filter (fun t =>
                m.subsetGuard t && triangleIntersectsBounds (triA m t) cb)).isEmpty
              then none
              else some (subdivideNodeF m cfg fuel cb
                (ts.filter (fun t =>
                  m.subsetGuard t && triangleIntersectsBounds (triA m t) cb))
                (d + 1)))
            (fun cb => (ts.filter (fun t =>
              m.subsetGuard t && triangleIntersectsBounds (triA m t) cb)).length)
            ?_
          · exact le_trans h1 h2
          · intro cb hcb
            constructor
            · intro n hn
              simp only [] at hn
              by_cases hft : (ts.filter (fun t =>
                  m.subsetGuard t &&
                    triangleIntersectsBounds (triA m t) cb)).isEmpty
              · rw [if_pos hft] at hn
                exact absurd hn (by simp)
              · rw [if_neg hft] at hn
                obtain rfl := Option.some_inj.mp hn
                exact (ih cb _ (d + 1) (hctinv cb hcb)).1
            · intro hn
              simp only [] at hn
              by_cases hft : (ts.filter (fun t =>
                  m.subsetGuard t &&
                    triangleIntersectsBounds (triA m t) cb)).isEmpty
              · rw [List.isEmpty_iff] at hft
                simp [hft]
              · rw [if_neg hft] at hn
                exact absurd hn (by simp)
        · intro t ht
          rw [ONode.inLeafB]
          rw [hemp2]
          simp only [Bool.false_eq_true, if_false]
          obtain ⟨cb, hcb, hp⟩ := hcov t ht
          have htf : t ∈ ts.filter (fun t =>
              m.subsetGuard t && triangleIntersectsBounds (triA m t) cb) :=
            List.mem_filter.mpr ⟨ht, hp⟩
          have hne : (ts.filter (fun t =>
              m.subsetGuard t &&
                triangleIntersectsBounds (triA m t) cb)).isEmpty = false := by
            rcases hfe : ts.filter (fun t =>
              m.subsetGuard t && triangleIntersectsBounds (triA m t) cb) with
              _ | _
            · rw [hfe] at htf
              simp at htf
            · rfl
          have hnmem : subdivideNodeF m cfg fuel cb
              (ts.filter (fun t =>
                m.subsetGuard t && triangleIntersectsBounds (triA m t) cb))
              (d + 1) ∈
              b.subdivide.filterMap (fun cb =>
                if (ts.filter (fun t =>
                  m.subsetGuard t &&
                    triangleIntersectsBounds (triA m t) cb)).isEmpty
                then none
                else some (subdivideNodeF m cfg fuel cb
                  (ts.filter (fun t =>
                    m.subsetGuard t &&
                      triangleIntersectsBounds (triA m t) cb))
                  (d + 1))) := by
            rw [List.mem_filterMap]
            refine ⟨cb, hcb, ?_⟩
            rw [hne]
            simp
          exact inLeafList_of_mem hnmem
            ((ih cb _ (d + 1) (hctinv cb hcb)).2 t htf)

end Lod

namespace Lod

lemma getD_mem_of_lt {α : Type} {l : List α} {n : Nat} {d : α}
    (h : n < l.length) : l.getD n d ∈ l := by
  rw [List.getD_eq_getElem?_getD, List.getElem?_eq_getElem h]
  exact List.getElem_mem _

lemma computeTriangleBounds_corner0 (tri : Vec3 × Vec3 × Vec3) :
    (((computeTriangleBounds tri).min.x ≤ tri.1.x ∧
      (computeTriangleBounds tri).min.y ≤ tri.1.y ∧
      (computeTriangleBounds tri).min.z ≤ tri.1.z) ∧
     (tri.1.x ≤ (computeTriangleBounds tri).max.x ∧
      tri.1.y ≤ (computeTriangleBounds tri).max.y ∧
      tri.1.z ≤ (computeTriangleBounds tri).max.z)) :=
  ⟨⟨le_trans (min_le_left _ _) (min_le_left _ _),
    le_trans (min_le_left _ _) (min_le_left _ _),
    le_trans (min_le_left _ _) (min_le_left _ _)⟩,
   ⟨le_trans (le_max_left _ _) (le_max_left _ _),
    le_trans (le_max_left _ _) (le_max_left _ _),
    le_trans (le_max_left _ _) (le_max_left _ _)⟩⟩

lemma intersects_of_common (b o : Box) (p : Vec3)
    (hb : ((b.min.x ≤ p.x ∧ b.min.y ≤ p.y ∧ b.min.z ≤ p.z) ∧
           (p.x ≤ b.max.x ∧ p.y ≤ b.max.y ∧ p.z ≤ b.max.z)))
    (ho : ((o.min.x ≤ p.x ∧ o.min.y ≤ p.y ∧ o.min.z ≤ p.z) ∧
           (p.x ≤ o.max.x ∧ p.y ≤ o.max.y ∧ p.z ≤ o.max.z))) :
    b.intersects o = true := by
  obtain ⟨⟨h1, h2, h3⟩, h4, h5, h6⟩ := hb
  obtain ⟨⟨g1, g2, g3⟩, g4, g5, g6⟩ := ho
  simp only [Box.intersects, Bool.not_eq_true', Bool.or_eq_false_iff,
    decide_eq_false_iff_not, not_lt, gt_iff_lt]
  and_intros <;> linarith

/-- C1: on a well-formed mesh whose index buffer fits 32-bit subscripts,
the intersection-based partitioner never drops a triangle — every
triangle id lands in at least one leaf, and the sum of the leaf
triangle-list lengths is at least (not exactly) the source triangle
count, since a triangle is copied into every intersecting child. -/
theorem C1_leaf_account (m : MeshA) (cfg : OctreeConfig) (root : ONode)
    (hwf : m.wf) (hlen : m.indices.length ≤ 2 ^ 32)
    (h : buildOctree1 m cfg = some root) :
    m.triangleCount ≤ root.leafTriSum ∧
    ∀ t, t < m.triangleCount → root.inLeafB t = true := by
  unfold buildOctree1 at h
  by_cases hm : m.emptyM
  · rw [if_pos hm] at h
    exact absurd h (by simp)
  · rw [if_neg hm] at h
    simp only [] at h
    by_cases hrb : (computeBoundingBox m).emptyB
    · rw [if_pos hrb] at h
      exact absurd h (by simp)
    · rw [if_neg hrb] at h
      obtain rfl := (Option.some_inj.mp h).symm
      have hinvp : ∀ t ∈ List.range m.triangleCount,
          m.subsetGuard t = true ∧
          (computeBoundingBox m).intersects
            (computeTriangleBounds (triA m t)) = true := by
        intro t ht
        rw [List.mem_range] at ht
        have ht2 : t < m.indices.length / 3 := ht
        have hlt : t * 3 + 2 < m.indices.length := by omega
        have hnw : t * 3 + 2 < 2 ^ 32 := lt_of_lt_of_le hlt hlen
        constructor
        · rw [subsetGuard_nowrap hnw]
          exact decide_eq_true hlt
        · have hc0 : (triA m t).1 ∈ m.vertices.positions :=
            getD_mem_of_lt (hwf _ (triIdx_mem (by omega) hnw hlt))
          exact intersects_of_common _ _ _
            (computeBoundingBox_bounds m _ hc0)
            (computeTriangleBounds_corner0 (triA m t))
      have hs := subdivideNodeF_sound m cfg (cfg.maxDepth + 1)
        (computeBoundingBox m) (List.range m.triangleCount) 0 hinvp
      constructor
      · have hl := hs.1
        rwa [List.length_range] at hl
      · intro t ht
        exact hs.2 t (List.mem_range.mpr ht)

set_option maxRecDepth 8000 in
unseal Rat.inv Rat.mul Rat.add Rat.sub in
/-- Witness for `C1_leaf_account` at a concrete mesh and configuration. -/
theorem C1_leaf_account_witness :
    exMeshDup.triangleCount ≤
      ((buildOctree1 exMeshDup ⟨1, 1, 0⟩).getD
        (.mk ⟨vzero, vzero⟩ [] [] 0)).leafTriSum ∧
    ∀ t, t < exMeshDup.triangleCount →
      ((buildOctree1 exMeshDup ⟨1, 1, 0⟩).getD
        (.mk ⟨vzero, vzero⟩ [] [] 0)).inLeafB t = true :=
  C1_leaf_account exMeshDup ⟨1, 1, 0⟩
    ((buildOctree1 exMeshDup ⟨1, 1, 0⟩).getD (.mk ⟨vzero, vzero⟩ [] [] 0))
    (by unfold MeshA.wf; decide) (by decide) (by rfl)

end Lod
